import Mathlib

/-!
Verification development for the `pyconfigreader` repository.

The development shallowly embeds `pyconfigreader/reader.py` (class
`ConfigReader`) together with the parts of the Python standard library it
depends on: the `configparser` in-memory model (sections as ordered
association lists, `BasicInterpolation`, the INI serializer and reader),
`ast.literal_eval` (on the literal forms relevant to configuration values),
and `difflib.SequenceMatcher.ratio`.

Strings are modelled as Lean `String`/`List Char`; Python floats appearing
as configuration values are modelled by their decimal literal form
(sign, integer digits, fraction digits); the float `threshold`/`ratio`
arithmetic of `search` is modelled over `ℚ`.
-/

set_option autoImplicit false

namespace PyCfg

/-! ### Basic string utilities (models of Python `str` methods, ASCII range) -/

/-- Whitespace as recognised by Python `str.strip` (ASCII subset). -/
def pySpace (c : Char) : Bool :=
  c = ' ' || c = '\t' || c = '\n' || c = '\r' || c = '\x0b' || c = '\x0c'

def lstripL (l : List Char) : List Char := l.dropWhile pySpace

def rstripL (l : List Char) : List Char := (lstripL l.reverse).reverse

def stripL (l : List Char) : List Char := rstripL (lstripL l)

def pyStrip (s : String) : String := ⟨stripL s.data⟩

def pyRstrip (s : String) : String := ⟨rstripL s.data⟩

/-- Model of Python `str.lower` (ASCII range, matching the data used here). -/
def pyLower (s : String) : String := ⟨s.data.map Char.toLower⟩

/-- `listPfx pat l` holds when `pat` is a prefix of `l`. -/
def listPfx : List Char → List Char → Bool
  | [], _ => true
  | _ :: _, [] => false
  | p :: ps, c :: cs => p = c && listPfx ps cs

/-- Leftmost non-overlapping replacement, the model of Python `str.replace`
(fuelled by the length of the subject string; `pat` is nonempty at all
call sites, so each step consumes at least one character). -/
def replaceAll : Nat → List Char → List Char → List Char → List Char
  | 0, _, _, l => l
  | fuel + 1, pat, rep, l =>
    if listPfx pat l then rep ++ replaceAll fuel pat rep (l.drop pat.length)
    else match l with
      | [] => []
      | c :: rest => c :: replaceAll fuel pat rep rest

def pyReplace (s pat rep : String) : String :=
  ⟨replaceAll s.data.length pat.data rep.data s.data⟩

/-! ### Ordered mappings

`configparser` stores sections and options in (insertion-ordered)
dictionaries; they are modelled as association lists with unique keys:
lookup takes the first binding, `aset` replaces in place or appends,
`aremove` deletes the binding. -/

def alookup {α : Type} : List (String × α) → String → Option α
  | [], _ => none
  | (k, v) :: rest, key => if k = key then some v else alookup rest key

def aset {α : Type} : List (String × α) → String → α → List (String × α)
  | [], key, v => [(key, v)]
  | (k, w) :: rest, key, v =>
    if k = key then (k, v) :: rest else (k, w) :: aset rest key v

def aremove {α : Type} : List (String × α) → String → List (String × α)
  | [], _ => []
  | (k, w) :: rest, key =>
    if k = key then aremove rest key else (k, w) :: aremove rest key

/-- A section's options: ordered key/value pairs of raw strings. -/
abbrev Options := List (String × String)

/-- The parser's in-memory state: ordered sections. -/
abbrev Store := List (String × Options)

/-- `RawConfigParser.optionxform`: identity when the reader is case
sensitive, otherwise lower-casing (`reader.py` sets `optionxform = str`
only when `case_sensitive`). -/
def optionxform (cs : Bool) (k : String) : String := if cs then k else pyLower k

/-! ### Error kinds

All exception kinds that the embedded operations can surface. -/

inductive PyErr
  | noSectionError
  | noOptionError
  | interpolationMissingOption
  | interpolationDepth
  | interpolationSyntax
  | valueError
  | thresholdError
  | attributeError
  | sectionNameNotAllowed
  | duplicateSectionError
  | duplicateOptionError
  | missingSectionHeaderError
  | parsingError
deriving DecidableEq, Repr

/-! ### `configparser.BasicInterpolation` -/

/-- Match of `configparser`'s `_KEYCRE` pattern (a percent sign, an open
parenthesis, a nonempty name without a close parenthesis, then a close
parenthesis and the letter s) at the head of the input; returns the name
and the remainder. -/
def keyRefMatch : List Char → Option (List Char × List Char)
  | '%' :: '(' :: rest =>
    let name := rest.takeWhile (fun c => c ≠ ')')
    if name.isEmpty then none
    else
      match rest.drop name.length with
      | ')' :: 's' :: rem => some (name, rem)
      | _ => none
  | _ => none

theorem keyRefMatch_shrinks {l name rem : List Char}
    (h : keyRefMatch l = some (name, rem)) : rem.length < l.length := by
  unfold keyRefMatch at h
  split at h
  next rest =>
    dsimp only at h
    split at h
    · exact absurd h (by simp)
    · split at h
      next heq =>
        have hlen : (rest.drop (rest.takeWhile (fun c => c ≠ ')')).length).length
            = rest.length - (rest.takeWhile (fun c => c ≠ ')')).length :=
          List.length_drop _ _
        rw [heq] at hlen
        simp only [List.length_cons] at hlen
        simp only [Option.some.injEq, Prod.mk.injEq] at h
        obtain ⟨-, h2⟩ := h
        subst h2
        simp only [List.length_cons]
        omega
      · exact absurd h (by simp)
  next => exact absurd h (by simp)

/-- One depth level of `BasicInterpolation._interpolate_some`: scan the
value left to right, `%%` unescapes to `%`, `%(name)s` splices the looked
up value (through `sub`, the interpolation at the next depth, whenever the
value still contains a percent sign), any other `%` is a syntax error.
Fuelled by the input length plus one; every step consumes at least one
character, so the zero-fuel branch is unreachable at the fuel chosen by
`interpolateSome`. -/
def interpGo (cs : Bool) (map : Options)
    (sub : List Char → Except PyErr (List Char)) :
    Nat → List Char → Except PyErr (List Char)
  | 0, l => .ok l
  | _ + 1, [] => .ok []
  | fuel + 1, c :: rest =>
    if c = '%' then
      match rest with
      | [] => .error .interpolationSyntax
      | d :: rest2 =>
        if d = '%' then
          match interpGo cs map sub fuel rest2 with
          | .error e => .error e
          | .ok t => .ok ('%' :: t)
        else if d = '(' then
          match keyRefMatch (c :: d :: rest2) with
          | none => .error .interpolationSyntax
          | some (name, rem) =>
            match alookup map (optionxform cs ⟨name⟩) with
            | none => .error .interpolationMissingOption
            | some v =>
              if v.data.contains '%' then
                match sub v.data with
                | .error e => .error e
                | .ok subRes =>
                  match interpGo cs map sub fuel rem with
                  | .error e => .error e
                  | .ok t => .ok (subRes ++ t)
              else
                match interpGo cs map sub fuel rem with
                | .error e => .error e
                | .ok t => .ok (v.data ++ t)
        else .error .interpolationSyntax
    else
      match interpGo cs map sub fuel rest with
      | .error e => .error e
      | .ok t => .ok (c :: t)

/-- `_interpolate_some` stratified by the remaining depth: the Python code
raises the depth error once the depth exceeds `MAX_INTERPOLATION_DEPTH =
10`; a call at exhausted depth is exactly that entry check. -/
def interpolateSome (cs : Bool) (map : Options) :
    Nat → List Char → Except PyErr (List Char)
  | 0, _ => .error .interpolationDepth
  | b + 1, l => interpGo cs map (interpolateSome cs map b) (l.length + 1) l

/-- `BasicInterpolation.before_get`: expand interpolation references in a
raw stored value against the section's option map (top level is depth 1 of
10). -/
def beforeGet (cs : Bool) (map : Options) (value : String) :
    Except PyErr String :=
  match interpolateSome cs map 10 value.data with
  | .error e => .error e
  | .ok l => .ok ⟨l⟩

/-- Drop every occurrence of a doubled percent sign (the first step of
`BasicInterpolation.before_set`, Python `value.replace('%%', '')`). -/
def stripDoublePct : List Char → List Char
  | [] => []
  | [c] => [c]
  | c :: d :: rest =>
    if c = '%' && d = '%' then stripDoublePct rest
    else c :: stripDoublePct (d :: rest)

/-- Drop every `_KEYCRE` match (the second step of `before_set`,
`KEYCRE.sub('', tmp)`); fuelled by the input length. -/
def stripKeyRefs : Nat → List Char → List Char
  | 0, l => l
  | fuel + 1, l =>
    match keyRefMatch l with
    | some (_, rem) => stripKeyRefs fuel rem
    | none =>
      match l with
      | [] => []
      | c :: rest => c :: stripKeyRefs fuel rest

/-- `BasicInterpolation.before_set`: accept the value unless a stray
percent sign remains after removing escapes and references. -/
def beforeSetOk (value : String) : Bool :=
  let tmp := stripKeyRefs value.data.length (stripDoublePct value.data)
  !(tmp.contains '%')

/-! ### `ast.literal_eval`

A partial model of `ast.literal_eval`, exact on the forms the claims
quantify over: `None`, `True`, `False`, signed decimal integers, decimal
point floats (kept in their literal form: sign, integer digits, fraction
digits), quoted strings without escapes, and bracketed lists.  Other
literal forms (tuples, dicts, sets, exponent / underscore / hex
numerals, escapes, byte strings, ...) are parsed to `none` here although
Python evaluates them; therefore no theorem below reads `pyLiteralEval s
= none` as "Python raises" for an arbitrary `s`.  The only fallback
statement proved is over purely alphabetic strings
(`pyLiteralEval_alpha`), where `ast.literal_eval` demonstrably raises: a
bare identifier parses as a `Name` node, which `literal_eval` rejects
with `ValueError` (and a letters-only string with more than one word is
a `SyntaxError`). -/

inductive PyValue
  | pyNone
  | pyBool (b : Bool)
  | pyInt (n : Int)
  | pyFloat (neg : Bool) (ip fp : List Char)
  | pyStr (s : String)
  | pyList (xs : List PyValue)
deriving Repr

/-- Optional single leading sign (`ast` allows one unary plus or minus on
a numeric literal); returns whether the value is negated and the rest. -/
def parseSign : List Char → Bool × List Char
  | [] => (false, [])
  | c :: rest =>
    if c = '-' then (true, rest)
    else if c = '+' then (false, rest)
    else (false, c :: rest)

def digitVal (c : Char) : Nat := c.toNat - 48

def digitsToNat (l : List Char) : Nat :=
  l.foldl (fun a c => a * 10 + digitVal c) 0

/-- Decimal integer literal: nonempty digits, no leading zero unless the
digits are all zeros (Python rejects e.g. `007` but accepts `000`). -/
def validIntDigits (l : List Char) : Bool :=
  !l.isEmpty && l.all Char.isDigit &&
    (match l with
     | [] => true
     | c :: rest => if c = '0' then rest.all (fun x => x = '0') else true)

/-- Numeric literal: integer, or decimal-point float. -/
def parseNumLit (l : List Char) : Option PyValue :=
  let (neg, rest) := parseSign l
  if rest.isEmpty then none
  else if rest.all Char.isDigit then
    if validIntDigits rest then
      let n : Int := (digitsToNat rest : Int)
      some (.pyInt (if neg then -n else n))
    else none
  else
    let ip := rest.takeWhile Char.isDigit
    match rest.drop ip.length with
    | '.' :: fp =>
      if fp.all Char.isDigit && !(ip.isEmpty && fp.isEmpty) then
        some (.pyFloat neg ip fp)
      else none
    | _ => none

/-- Quoted string literal without escapes, spanning the whole input. -/
def parseStrLit (l : List Char) : Option PyValue :=
  match l with
  | q :: rest =>
    if q = '\'' || q = '"' then
      let contents := rest.takeWhile (fun c => c ≠ q)
      if contents.contains '\\' then none
      else match rest.drop contents.length with
        | [q2] => if q2 = q then some (.pyStr ⟨contents⟩) else none
        | _ => none
    else none
  | [] => none

/-- Split a bracketed body at top-level commas, tracking bracket nesting
and quoted spans. -/
def splitTopLevel : List Char → Nat → Option Char → List Char →
    List (List Char) → Option (List (List Char))
  | [], 0, none, acc, parts => some (parts ++ [acc])
  | [], _, _, _, _ => none
  | c :: rest, depth, some q, acc, parts =>
    if c = q then splitTopLevel rest depth none (acc ++ [c]) parts
    else splitTopLevel rest depth (some q) (acc ++ [c]) parts
  | c :: rest, depth, none, acc, parts =>
    if c = ',' && depth = 0 then splitTopLevel rest 0 none [] (parts ++ [acc])
    else if c = '[' || c = '(' || c = '{' then
      splitTopLevel rest (depth + 1) none (acc ++ [c]) parts
    else if c = ']' || c = ')' || c = '}' then
      match depth with
      | 0 => none
      | d + 1 => splitTopLevel rest d none (acc ++ [c]) parts
    else if c = '\'' || c = '"' then
      splitTopLevel rest depth (some c) (acc ++ [c]) parts
    else splitTopLevel rest depth none (acc ++ [c]) parts

mutual

/-- The literal parser (fuelled; the fuel chosen by `pyLiteralEval`
always suffices); input is stripped first, as `ast.literal_eval` accepts
surrounding whitespace. -/
def parseLit : Nat → List Char → Option PyValue
  | 0, _ => none
  | fuel + 1, l0 =>
    let l := stripL l0
    if l = "None".data then some .pyNone
    else if l = "True".data then some (.pyBool true)
    else if l = "False".data then some (.pyBool false)
    else
      match l with
      | [] => none
      | c :: rest =>
        if c = '[' then
          match rstripL rest with
          | [] => none
          | body =>
            if body.getLast? = some ']' then
              let inner := body.dropLast
              if (stripL inner).isEmpty then some (.pyList [])
              else
                match splitTopLevel inner 0 none [] [] with
                | none => none
                | some parts =>
                  match parseLitList fuel parts with
                  | none => none
                  | some xs => some (.pyList xs)
            else none
        else
          match parseStrLit (c :: rest) with
          | some v => some v
          | none => parseNumLit (c :: rest)

def parseLitList : Nat → List (List Char) → Option (List PyValue)
  | 0, _ => none
  | _ + 1, [] => some []
  | fuel + 1, p :: ps =>
    match parseLit fuel p with
    | none => none
    | some v =>
      match parseLitList fuel ps with
      | none => none
      | some vs => some (v :: vs)

end

/-- `ast.literal_eval` on a string: `none` models an exception of kind
`ValueError`/`SyntaxError`. -/
def pyLiteralEval (s : String) : Option PyValue :=
  parseLit (s.data.length + 2) s.data

/-- `ConfigReader._evaluate`: evaluate the string as a literal, falling
back to the raw string on `ValueError`/`SyntaxError`. -/
def pyEvaluate (s : String) : PyValue :=
  match pyLiteralEval s with
  | some v => v
  | none => .pyStr s

/-! ### Python `str()` of the scalar values (the renderers the claims
quantify over) -/

def digitChar (n : Nat) : Char := Char.ofNat (48 + n)

def natDigitsAux : Nat → Nat → List Char
  | 0, _ => []
  | _ + 1, 0 => []
  | fuel + 1, n + 1 =>
    natDigitsAux fuel ((n + 1) / 10) ++ [digitChar ((n + 1) % 10)]

def natDigits (n : Nat) : List Char :=
  if n = 0 then ['0'] else natDigitsAux (n + 1) n

def intRepr (n : Int) : String :=
  if n < 0 then ⟨'-' :: natDigits n.natAbs⟩ else ⟨natDigits n.natAbs⟩

def boolRepr (b : Bool) : String := if b then "True" else "False"

def floatRepr (neg : Bool) (ip fp : List Char) : String :=
  ⟨(if neg then ['-'] else []) ++ ip ++ '.' :: fp⟩

/-! ### The INI serializer (`ConfigParser.write`)

`_write_config` seeks to position 0 of the backing `StringIO` and calls
`parser.write`, which emits, per section, a `[name]` header, one
`key = value` line per option (newlines in values indented by a tab),
and a trailing blank line.  A `seek(0)`-then-write on a `StringIO` only
overlays the prefix: any old content beyond the written length stays. -/

def writeValueText (v : String) : String := pyReplace v "\n" "\n\t"

def writeSectionText (name : String) (opts : Options) : String :=
  "[" ++ name ++ "]\n" ++
    (opts.foldr (fun kv acc => kv.1 ++ " = " ++ writeValueText kv.2 ++ "\n" ++ acc) "") ++
    "\n"

def serializeStore (store : Store) : String :=
  store.foldr (fun so acc => writeSectionText so.1 so.2 ++ acc) ""

/-- `StringIO.seek(0)` followed by `write(new)`: the new text overlays the
old prefix and any longer old tail survives. -/
def overlayWrite (new old : String) : String :=
  ⟨new.data ++ old.data.drop new.data.length⟩

/-! ### The INI reader (`ConfigParser.read_file` into an existing parser)

Modelled constructs: `[section]` headers (trailing text after the closing
bracket is ignored, as with `SECTCRE.match`), `key = value` / `key: value`
option lines, full-line `#`/`;` comments, blank lines, and indented
continuation lines joined with newlines and right-stripped.  Sections and
options read twice in the same call fail (strict mode); text before any
header fails with the missing-section-header kind; an unparseable line
fails with the parsing-error kind (the model stops at the first such line,
while CPython collects parse errors and raises after the loop — the
difference only affects reads that fail).  The `DEFAULT` section is not
special-cased: `ConfigReader` refuses to create any case variant of it,
so it never appears in the buffers this model reads. -/

/-- Set one option inside one section of a store, creating the section at
the end if it is absent. -/
def storeSet (store : Store) (sect key value : String) : Store :=
  match alookup store sect with
  | some opts => aset store sect (aset opts key value)
  | none => store ++ [(sect, [(key, value)])]

/-- Match of `SECTCRE` (`[` then a nonempty name without `]` then `]`)
at the start of a stripped line. -/
def headerName (l : List Char) : Option String :=
  match l with
  | '[' :: rest =>
    let name := rest.takeWhile (fun c => c ≠ ']')
    if name.isEmpty then none
    else
      match rest.drop name.length with
      | ']' :: _ => some ⟨name⟩
      | _ => none
  | _ => none

/-- Split a stripped option line at the first `=` or `:` delimiter
(`OPTCRE`): the option name is right-stripped, the value stripped. -/
def splitOptLine (l : List Char) : Option (String × String) :=
  let opt := l.takeWhile (fun c => c ≠ '=' && c ≠ ':')
  match l.drop opt.length with
  | _ :: rest => some (⟨rstripL opt⟩, ⟨stripL rest⟩)
  | [] => none

/-- Split on newline characters (the lines a file object iterates). -/
def splitNlGo : List Char → List Char → List String
  | [], acc => [⟨acc.reverse⟩]
  | c :: rest, acc =>
    if c = '\n' then (⟨acc.reverse⟩ : String) :: splitNlGo rest []
    else splitNlGo rest (c :: acc)

def splitNl (s : String) : List String := splitNlGo s.data []

/-- Join with newlines (Python `'\n'.join`). -/
def joinNl : List String → String
  | [] => ""
  | [x] => x
  | x :: rest => x ++ "\n" ++ joinNl rest

/-- State of one `read_file` call: the store being merged into, the
current section, the option whose (multi-line) value is being collected,
the indent of the last header/option line, and the sections and options
already seen in this call (for strict-mode duplicate detection). -/
structure RState where
  store : Store
  cursect : Option String
  pending : Option (String × String × List String)
  indent : Nat
  addedSects : List String
  addedOpts : List (String × String)

/-- Join the collected value lines with newlines, right-strip, and store
(the model of `_join_multiline_values`). -/
def flushPending (st : RState) : RState :=
  match st.pending with
  | none => st
  | some (sect, opt, lines) =>
    { st with
      store := storeSet st.store sect opt (pyRstrip (joinNl lines))
      pending := none }

def blankStep (st : RState) : RState :=
  match st.pending with
  | some (sect, opt, lines) => { st with pending := some (sect, opt, lines ++ [""]) }
  | none => st

def readLines (cs : Bool) : RState → List String → Option PyErr × RState
  | st, [] => (none, flushPending st)
  | st, line :: rest =>
    let stripped := stripL line.data
    match stripped with
    | [] => readLines cs (blankStep st) rest
    | c :: _ =>
      if c = '#' || c = ';' then readLines cs st rest
      else
        let curIndent := (line.data.takeWhile pySpace).length
        if st.cursect.isSome && st.pending.isSome && decide (st.indent < curIndent) then
          match st.pending with
          | some (sect, opt, lines) =>
            readLines cs
              { st with pending := some (sect, opt, lines ++ [(⟨stripped⟩ : String)]) } rest
          | none => readLines cs st rest
        else
          let st1 := { flushPending st with indent := curIndent }
          match headerName stripped with
          | some name =>
            if st1.addedSects.contains name then (some .duplicateSectionError, st1)
            else
              let store' :=
                match alookup st1.store name with
                | some _ => st1.store
                | none => st1.store ++ [(name, [])]
              readLines cs
                { st1 with
                  store := store'
                  cursect := some name
                  pending := none
                  addedSects := st1.addedSects ++ [name] } rest
          | none =>
            match st1.cursect with
            | none => (some .missingSectionHeaderError, st1)
            | some sect =>
              match splitOptLine stripped with
              | none => (some .parsingError, st1)
              | some (optRaw, val) =>
                let opt := optionxform cs optRaw
                if st1.addedOpts.contains (sect, opt) then
                  (some .duplicateOptionError, st1)
                else
                  readLines cs
                    { st1 with
                      pending := some (sect, opt, [val])
                      addedOpts := st1.addedOpts ++ [(sect, opt)] } rest

/-- `parser.read_file` on the whole buffer, merging into `store`. -/
def readInto (cs : Bool) (store : Store) (src : String) : Option PyErr × Store :=
  let st0 : RState :=
    { store := store, cursect := none, pending := none, indent := 0
      addedSects := [], addedOpts := [] }
  let (e, st) := readLines cs st0 (splitNl src)
  (e, st.store)

/-! ### The `ConfigReader` state and operations

The reader owns the parser's in-memory store, the backing `StringIO`
buffer, a flag for whether the file object attribute still exists
(`close` deletes it, so later accesses raise `AttributeError`), and the
content of the file on disk that `save` writes to.  Filesystem path
resolution (`_set_filename`, `_check_file_object`) is an external
collaborator and is outside this model: construction is modelled from
the point where `load_defaults` has parsed the on-disk file into a
`Store`. -/

structure Reader where
  caseSensitive : Bool
  store : Store
  buffer : String
  hasFile : Bool
  disk : String

def mainSection : String := "main"

/-- `ConfigReader._add_section`: refuse any case variant of `default`,
otherwise add the section, swallowing the duplicate-section error. -/
def addSectionOp (r : Reader) (sectName : String) : Option PyErr × Reader :=
  if pyLower sectName = "default" then (some .sectionNameNotAllowed, r)
  else
    match alookup r.store sectName with
    | some _ => (none, r)
    | none => (none, { r with store := r.store ++ [(sectName, [])] })

/-- `ConfigReader._write_config`: seek to 0 and serialize into the
buffer (overlay semantics, no truncation). -/
def writeConfigOp (r : Reader) : Option PyErr × Reader :=
  if r.hasFile then
    (none, { r with buffer := overlayWrite (serializeStore r.store) r.buffer })
  else (some .attributeError, r)

/-- `ConfigReader.save`: copy the buffer to the file on disk. -/
def saveOp (r : Reader) : Option PyErr × Reader :=
  if r.hasFile then (none, { r with disk := r.buffer })
  else (some .attributeError, r)

/-- `ConfigParser.set`: validate with `before_set`, then store the value
under the transformed option name. -/
def parserSetOp (cs : Bool) (store : Store) (sectName key value : String) :
    Except PyErr Store :=
  if beforeSetOk value then
    match alookup store sectName with
    | none => .error .noSectionError
    | some opts => .ok (aset store sectName (aset opts (optionxform cs key) value))
  else .error .valueError

def afterSetWrite (r : Reader) (commit : Bool) : Option PyErr × Reader :=
  match writeConfigOp r with
  | (some e, r') => (some e, r')
  | (none, r') => if commit then saveOp r' else (none, r')

/-- `ConfigReader.set`: create the section if needed, store `str(value)`;
on an interpolation `ValueError` escape percent signs
(`replace('%', '%%').replace('%%(', '%(')`) and retry once; then
re-serialize to the buffer and optionally commit to disk. -/
def setOp (r : Reader) (key value : String) (sectName : Option String)
    (commit : Bool) : Option PyErr × Reader :=
  let sect := sectName.getD mainSection
  match addSectionOp r sect with
  | (some e, r') => (some e, r')
  | (none, r1) =>
    match parserSetOp r1.caseSensitive r1.store sect key value with
    | .ok store' => afterSetWrite { r1 with store := store' } commit
    | .error .valueError =>
      let value2 := pyReplace (pyReplace value "%" "%%") "%%(" "%("
      match parserSetOp r1.caseSensitive r1.store sect key value2 with
      | .ok store' => afterSetWrite { r1 with store := store' } commit
      | .error e => (some e, r1)
    | .error e => (some e, r1)

/-- `ConfigParser.get` (with interpolation, `raw=False`): look up the
section, then the transformed option, then expand the stored value. -/
def parserGetOp (cs : Bool) (store : Store) (sectName key : String) :
    Except PyErr String :=
  match alookup store sectName with
  | none => .error .noSectionError
  | some opts =>
    match alookup opts (optionxform cs key) with
    | none => .error .noOptionError
    | some v => beforeGet cs opts v

/-- `ConfigReader.get` before evaluation: the initial value is the string
`"None"`; a hit replaces it; on a missing section or option with a
non-null `default` the default is stored via `set` and returned. -/
def getRawOp (r : Reader) (key : String) (sectName : Option String)
    (default : Option String) (defaultCommit : Bool) :
    Except PyErr String × Reader :=
  let sect := sectName.getD mainSection
  match parserGetOp r.caseSensitive r.store sect key with
  | .ok v => (.ok v, r)
  | .error .noSectionError | .error .noOptionError =>
    match default with
    | some d =>
      match setOp r key d (some sect) defaultCommit with
      | (some e, r') => (.error e, r')
      | (none, r') => (.ok d, r')
    | none => (.ok "None", r)
  | .error e => (.error e, r)

/-- `ConfigReader.get`: with `evaluate` the resulting string is passed to
`_evaluate`, otherwise it is returned as a string. -/
def getOp (r : Reader) (key : String) (sectName : Option String)
    (evaluate : Bool) (default : Option String) (defaultCommit : Bool) :
    Except PyErr PyValue × Reader :=
  match getRawOp r key sectName default defaultCommit with
  | (.ok v, r') => (.ok (if evaluate then pyEvaluate v else .pyStr v), r')
  | (.error e, r') => (.error e, r')

def itemsEval (cs : Bool) (opts : Options) :
    List (String × String) → Except PyErr (List (String × PyValue))
  | [] => .ok []
  | (k, v) :: rest =>
    match beforeGet cs opts v with
    | .error e => .error e
    | .ok w =>
      match itemsEval cs opts rest with
      | .error e => .error e
      | .ok t => .ok ((k, pyEvaluate w) :: t)

/-- `ConfigReader.get_items`: `none` when the section is absent,
otherwise the ordered options with interpolated, evaluated values. -/
def getItemsOp (r : Reader) (sectName : String) :
    Except PyErr (Option (List (String × PyValue))) :=
  match alookup r.store sectName with
  | none => .ok none
  | some opts =>
    match itemsEval r.caseSensitive opts opts with
    | .error e => .error e
    | .ok items => .ok (some items)

/-- `ConfigReader.remove_section`: seek to 0, re-read the buffer into the
parser, remove the section (no error if absent), re-serialize and
truncate, so the buffer ends up exactly the serialization. -/
def removeSectionOp (r : Reader) (sectName : String) : Option PyErr × Reader :=
  if r.hasFile then
    match readInto r.caseSensitive r.store r.buffer with
    | (some e, store') => (some e, { r with store := store' })
    | (none, store') =>
      let store2 := aremove store' sectName
      (none, { r with store := store2, buffer := serializeStore store2 })
  else (some .attributeError, r)

/-- `ConfigReader.remove_option`: seek to 0, re-read the buffer, then
`parser.remove_option`, which fails with the no-section kind when the
section does not exist; re-serialize, truncate, optionally commit. -/
def removeOptionOp (r : Reader) (key : String) (sectName : Option String)
    (commit : Bool) : Option PyErr × Reader :=
  let sect := sectName.getD mainSection
  if r.hasFile then
    match readInto r.caseSensitive r.store r.buffer with
    | (some e, store') => (some e, { r with store := store' })
    | (none, store') =>
      match alookup store' sect with
      | none => (some .noSectionError, { r with store := store' })
      | some opts =>
        let store2 := aset store' sect (aremove opts (optionxform r.caseSensitive key))
        let r2 := { r with store := store2, buffer := serializeStore store2 }
        if commit then saveOp r2 else (none, r2)
  else (some .attributeError, r)

/-- `ConfigReader.close`: optionally save, then close and delete the file
object; any later touch of it raises `AttributeError`. -/
def closeOp (r : Reader) (save : Bool) : Option PyErr × Reader :=
  if save then
    match saveOp r with
    | (some e, r') => (some e, r')
    | (none, r') =>
      if r'.hasFile then (none, { r' with hasFile := false })
      else (some .attributeError, r')
  else if r.hasFile then (none, { r with hasFile := false })
  else (some .attributeError, r)

/-! ### Construction

`ConfigReader.__init__` / `_create_config`: the class-level default seed
`__defaults = OrderedDict([('reader', 'configreader')])` is *shared by all
instances* and updated in place with the sections parsed from the file on
disk (`load_defaults`); every entry is then written into the fresh
parser — dictionary-valued entries become sections, string-valued entries
go to the `main` section — and the result is serialized to the buffer.
Construction therefore threads the class-level defaults state. -/

inductive DefVal
  | str (v : String)
  | sect (opts : Options)

abbrev Defaults := List (String × DefVal)

/-- The pristine class-level seed. -/
def initialDefaults : Defaults := [("reader", .str "configreader")]

/-- `OrderedDict.update`: replace in place or append, in order. -/
def defaultsUpdate (d : Defaults) : List (String × DefVal) → Defaults
  | [] => d
  | (k, v) :: rest => defaultsUpdate (aset d k v) rest

def setAllIn (r : Reader) (sect : String) :
    List (String × String) → Option PyErr × Reader
  | [] => (none, r)
  | (k, v) :: rest =>
    match setOp r k v (some sect) false with
    | (some e, r') => (some e, r')
    | (none, r') => setAllIn r' sect rest

def processDefault (r : Reader) : String × DefVal → Option PyErr × Reader
  | (key, .sect items) =>
    match addSectionOp r key with
    | (some e, r') => (some e, r')
    | (none, r1) => setAllIn r1 key items
  | (key, .str v) =>
    match addSectionOp r mainSection with
    | (some e, r') => (some e, r')
    | (none, r1) => setOp r1 key v (some mainSection) false

def processDefaults (r : Reader) : Defaults → Option PyErr × Reader
  | [] => (none, r)
  | d :: rest =>
    match processDefault r d with
    | (some e, r') => (some e, r')
    | (none, r') => processDefaults r' rest

/-- `ConfigReader.__init__` with `file_object = None`: `diskStore` is the
result of `load_defaults` on the file at the resolved path (empty when no
file exists).  Returns the constructed reader and the mutated class-level
defaults, which the next construction will observe. -/
def construct (classDefaults : Defaults) (diskStore : Store) (cs : Bool) :
    Option PyErr × Reader × Defaults :=
  let d1 := defaultsUpdate classDefaults (diskStore.map fun p => (p.1, DefVal.sect p.2))
  let r0 : Reader :=
    { caseSensitive := cs, store := [], buffer := "", hasFile := true, disk := "" }
  match processDefaults r0 d1 with
  | (some e, r) => (some e, r, d1)
  | (none, r) =>
    match writeConfigOp r with
    | (some e, r') => (some e, r', d1)
    | (none, r') => (none, r', d1)

/-! ### Association-list lemmas -/

theorem alookup_aset_self {α : Type} (l : List (String × α)) (k : String) (v : α) :
    alookup (aset l k v) k = some v := by
  induction l with
  | nil => simp [aset, alookup]
  | cons p rest ih =>
    obtain ⟨k0, v0⟩ := p
    by_cases h : k0 = k
    · subst h; simp [aset, alookup]
    · simp [aset, alookup, h, ih]

theorem alookup_aset_ne {α : Type} (l : List (String × α)) (k k' : String) (v : α)
    (h : k' ≠ k) : alookup (aset l k v) k' = alookup l k' := by
  induction l with
  | nil =>
    have hk : ¬(k = k') := fun hh => h hh.symm
    simp [aset, alookup, hk]
  | cons p rest ih =>
    obtain ⟨k0, v0⟩ := p
    by_cases h0 : k0 = k
    · have hk0 : ¬(k0 = k') := by rw [h0]; exact fun hh => h hh.symm
      have hk : ¬(k = k') := fun hh => h hh.symm
      simp [aset, h0, alookup, hk0, hk]
    · simp [aset, alookup, h0, ih]

theorem alookup_aremove_self {α : Type} (l : List (String × α)) (k : String) :
    alookup (aremove l k) k = none := by
  induction l with
  | nil => simp [aremove, alookup]
  | cons p rest ih =>
    obtain ⟨k0, v0⟩ := p
    by_cases h : k0 = k
    · simp [aremove, h, ih]
    · simp [aremove, alookup, h, ih]

theorem alookup_aremove_ne {α : Type} (l : List (String × α)) (k k' : String)
    (h : k' ≠ k) : alookup (aremove l k) k' = alookup l k' := by
  induction l with
  | nil => simp [aremove]
  | cons p rest ih =>
    obtain ⟨k0, v0⟩ := p
    by_cases h0 : k0 = k
    · have hk0 : ¬(k0 = k') := by rw [h0]; exact fun hh => h hh.symm
      have hk : ¬(k = k') := fun hh => h hh.symm
      simp [aremove, h0, alookup, hk0, hk, ih]
    · simp [aremove, alookup, h0, ih]

theorem aremove_of_absent {α : Type} (l : List (String × α)) (k : String)
    (h : alookup l k = none) : aremove l k = l := by
  induction l with
  | nil => simp [aremove]
  | cons p rest ih =>
    obtain ⟨k0, v0⟩ := p
    simp only [alookup] at h
    by_cases h0 : k0 = k
    · simp [h0] at h
    · simp only [aremove, if_neg h0]
      rw [ih (by simpa [h0] using h)]

theorem aset_of_present_same {α : Type} (l : List (String × α)) (k : String) (v : α)
    (h : alookup l k = some v) : aset l k v = l := by
  induction l with
  | nil => simp [alookup] at h
  | cons p rest ih =>
    obtain ⟨k0, v0⟩ := p
    simp only [alookup] at h
    by_cases h0 : k0 = k
    · subst h0
      rw [if_pos rfl] at h
      obtain rfl := Option.some.inj h
      simp [aset]
    · simp only [if_neg h0] at h
      simp [aset, h0, ih h]

theorem alookup_append_left {α : Type} (l t : List (String × α)) (k : String) (v : α)
    (h : alookup l k = some v) : alookup (l ++ t) k = some v := by
  induction l with
  | nil => simp [alookup] at h
  | cons p rest ih =>
    obtain ⟨k0, v0⟩ := p
    simp only [alookup] at h ⊢
    by_cases h0 : k0 = k
    · simpa [h0] using h
    · simp only [if_neg h0] at h ⊢
      exact ih h

theorem alookup_append_right {α : Type} (l t : List (String × α)) (k : String)
    (h : alookup l k = none) : alookup (l ++ t) k = alookup t k := by
  induction l with
  | nil => simp
  | cons p rest ih =>
    obtain ⟨k0, v0⟩ := p
    simp only [alookup] at h ⊢
    by_cases h0 : k0 = k
    · simp [h0] at h
    · simp only [if_neg h0] at h ⊢
      exact ih h

theorem aset_of_absent {α : Type} (l : List (String × α)) (k : String) (v : α)
    (h : alookup l k = none) : aset l k v = l ++ [(k, v)] := by
  induction l with
  | nil => simp [aset]
  | cons p rest ih =>
    obtain ⟨k0, v0⟩ := p
    simp only [alookup] at h
    by_cases h0 : k0 = k
    · simp [h0] at h
    · simp only [if_neg h0] at h
      simp [aset, h0, ih h]

/-! ### Interpolation of percent-free values -/

theorem interpGo_no_pct (cs : Bool) (map : Options)
    (sub : List Char → Except PyErr (List Char)) :
    ∀ fuel l, (∀ c ∈ l, c ≠ '%') → l.length < fuel →
      interpGo cs map sub fuel l = .ok l := by
  intro fuel
  induction fuel with
  | zero => intro l _ hf; omega
  | succ n ih =>
    intro l h hf
    cases l with
    | nil => rfl
    | cons c rest =>
      have hc : c ≠ '%' := h c (List.mem_cons_self c rest)
      have hrest : ∀ x ∈ rest, x ≠ '%' := fun x hx => h x (List.mem_cons_of_mem c hx)
      have hlen : rest.length < n := by
        simp only [List.length_cons] at hf; omega
      rw [interpGo.eq_def]
      dsimp only
      rw [if_neg hc, ih rest hrest hlen]

theorem interpolateSome_no_pct (cs : Bool) (map : Options) (b : Nat)
    (l : List Char) (hb : b ≠ 0) (h : ∀ c ∈ l, c ≠ '%') :
    interpolateSome cs map b l = .ok l := by
  cases b with
  | zero => exact absurd rfl hb
  | succ m =>
    rw [interpolateSome]
    exact interpGo_no_pct cs map _ (l.length + 1) l h (by omega)

theorem beforeGet_no_pct (cs : Bool) (map : Options) (s : String)
    (h : ∀ c ∈ s.data, c ≠ '%') : beforeGet cs map s = .ok s := by
  unfold beforeGet
  rw [interpolateSome_no_pct cs map 10 s.data (by omega) h]

theorem stripDoublePct_no_pct (l : List Char) (h : ∀ c ∈ l, c ≠ '%') :
    stripDoublePct l = l := by
  induction l with
  | nil => rfl
  | cons c rest ih =>
    have hc : c ≠ '%' := h c (List.mem_cons_self c rest)
    have hrest : ∀ x ∈ rest, x ≠ '%' := fun x hx => h x (List.mem_cons_of_mem c hx)
    cases rest with
    | nil => rfl
    | cons d rest2 =>
      rw [stripDoublePct, if_neg (by simp [hc]), ih hrest]

theorem keyRefMatch_none_of_no_pct (l : List Char) (h : ∀ c ∈ l, c ≠ '%') :
    keyRefMatch l = none := by
  match l with
  | [] => rfl
  | c :: rest =>
    have hc : c ≠ '%' := h c (List.mem_cons_self c rest)
    rw [keyRefMatch.eq_def]
    split <;> simp_all

theorem stripKeyRefs_no_pct (fuel : Nat) (l : List Char) (h : ∀ c ∈ l, c ≠ '%') :
    stripKeyRefs fuel l = l := by
  induction fuel generalizing l with
  | zero => rfl
  | succ n ih =>
    rw [stripKeyRefs.eq_def]
    dsimp only
    rw [keyRefMatch_none_of_no_pct l h]
    cases l with
    | nil => rfl
    | cons c rest =>
      dsimp only
      rw [ih rest (fun x hx => h x (List.mem_cons_of_mem c hx))]

theorem beforeSetOk_no_pct (s : String) (h : ∀ c ∈ s.data, c ≠ '%') :
    beforeSetOk s = true := by
  unfold beforeSetOk
  rw [stripDoublePct_no_pct s.data h, stripKeyRefs_no_pct _ s.data h]
  simp only [Bool.not_eq_true']
  by_contra hmem
  simp only [Bool.not_eq_false] at hmem
  have hmem2 : '%' ∈ s.data := by simpa using hmem
  exact h '%' hmem2 rfl

/-! ### Digit and literal roundtrip lemmas -/

theorem lstripL_id (l : List Char) (h : ∀ c ∈ l, pySpace c = false) :
    lstripL l = l := by
  cases l with
  | nil => rfl
  | cons c rest =>
    unfold lstripL
    rw [List.dropWhile_cons, h c (List.mem_cons_self c rest)]
    simp

theorem rstripL_id (l : List Char) (h : ∀ c ∈ l, pySpace c = false) :
    rstripL l = l := by
  unfold rstripL
  rw [lstripL_id l.reverse (fun c hc => h c (List.mem_reverse.mp hc)), List.reverse_reverse]

theorem stripL_id (l : List Char) (h : ∀ c ∈ l, pySpace c = false) :
    stripL l = l := by
  unfold stripL
  rw [lstripL_id l h, rstripL_id l h]

theorem isDigit_not_space (c : Char) (h : c.isDigit = true) : pySpace c = false := by
  unfold pySpace
  simp only [Bool.or_eq_false_iff, decide_eq_false_iff_not]
  refine ⟨⟨⟨⟨⟨?_, ?_⟩, ?_⟩, ?_⟩, ?_⟩, ?_⟩ <;>
    (rintro rfl; simp [Char.isDigit] at h)

theorem natDigitsAux_zero (fuel : Nat) : natDigitsAux fuel 0 = [] := by
  cases fuel <;> rfl

theorem digitsToNat_append_digit (a : List Char) (c : Char) :
    digitsToNat (a ++ [c]) = digitsToNat a * 10 + digitVal c := by
  unfold digitsToNat
  rw [List.foldl_append]
  rfl

theorem digitVal_digitChar : ∀ d, d < 10 → digitVal (digitChar d) = d := by decide

theorem isDigit_digitChar : ∀ d, d < 10 → (digitChar d).isDigit = true := by decide

theorem digitChar_ne_zero : ∀ d < 10, 0 < d → digitChar d ≠ '0' := by decide

theorem natDigitsAux_spec : ∀ fuel n, n ≤ fuel →
    ((natDigitsAux fuel n).all Char.isDigit = true) ∧
    digitsToNat (natDigitsAux fuel n) = n ∧
    (0 < n → natDigitsAux fuel n ≠ [] ∧ (natDigitsAux fuel n).head? ≠ some '0') := by
  intro fuel
  induction fuel with
  | zero =>
    intro n hn
    have h0 : n = 0 := by omega
    subst h0
    exact ⟨rfl, rfl, fun h => absurd h (by omega)⟩
  | succ f ih =>
    intro n hn
    cases n with
    | zero => exact ⟨rfl, rfl, fun h => absurd h (by omega)⟩
    | succ m =>
      have hdiv : (m + 1) / 10 ≤ f := by
        have := Nat.div_lt_self (Nat.succ_pos m) (by omega : 1 < 10)
        omega
      obtain ⟨ihAll, ihVal, ihHead⟩ := ih ((m + 1) / 10) hdiv
      have hmod : (m + 1) % 10 < 10 := Nat.mod_lt _ (by omega)
      rw [natDigitsAux]
      refine ⟨?_, ?_, ?_⟩
      · rw [List.all_append, ihAll]
        simp [isDigit_digitChar _ hmod]
      · rw [digitsToNat_append_digit, ihVal, digitVal_digitChar _ hmod]
        omega
      · intro _
        constructor
        · simp
        · cases haux : natDigitsAux f ((m + 1) / 10) with
          | nil =>
            have hq : (m + 1) / 10 = 0 := by rw [haux] at ihVal; exact ihVal.symm
            have hlt : m + 1 < 10 := by omega
            have hmodeq : (m + 1) % 10 = m + 1 := Nat.mod_eq_of_lt hlt
            simp only [haux, List.nil_append, List.head?_cons, ne_eq,
              Option.some.injEq]
            rw [hmodeq]
            exact digitChar_ne_zero (m + 1) hlt (by omega)
          | cons d ds =>
            have hq : 0 < (m + 1) / 10 := by
              by_contra hq0
              have : (m + 1) / 10 = 0 := by omega
              rw [this, natDigitsAux_zero] at haux
              exact absurd haux (by simp)
            have := (ihHead hq).2
            rw [haux] at this
            simpa [haux] using this

theorem natDigits_spec (n : Nat) :
    (natDigits n).all Char.isDigit = true ∧
    digitsToNat (natDigits n) = n ∧
    natDigits n ≠ [] ∧
    validIntDigits (natDigits n) = true := by
  unfold natDigits
  by_cases h0 : n = 0
  · subst h0
    exact ⟨rfl, rfl, by simp, rfl⟩
  · rw [if_neg h0]
    obtain ⟨hAll, hVal, hPos⟩ := natDigitsAux_spec (n + 1) n (by omega)
    obtain ⟨hne, hhead⟩ := hPos (by omega)
    refine ⟨hAll, hVal, hne, ?_⟩
    unfold validIntDigits
    rw [hAll]
    cases hl : natDigitsAux (n + 1) n with
    | nil => exact absurd hl hne
    | cons c rest =>
      have hc0 : c ≠ '0' := by
        rw [hl] at hhead
        simpa using hhead
      simp [hl, hc0]

theorem natDigits_ne_zero_head (n : Nat) (h : 0 < n) :
    (natDigits n).head? ≠ some '0' := by
  unfold natDigits
  rw [if_neg (by omega : ¬ n = 0)]
  exact ((natDigitsAux_spec (n + 1) n (by omega)).2.2 h).2

theorem mem_digits_isDigit {l : List Char} (hall : l.all Char.isDigit = true)
    {c : Char} (hc : c ∈ l) : c.isDigit = true := by
  rw [List.all_eq_true] at hall
  exact hall c hc

/-- Characters of `intRepr n` are minus signs or digits, hence never
whitespace, percent signs, quotes, brackets or letters. -/
theorem intRepr_chars (n : Int) :
    ∀ c ∈ (intRepr n).data, c = '-' ∨ c.isDigit = true := by
  intro c hc
  unfold intRepr at hc
  by_cases hneg : n < 0
  · rw [if_pos hneg] at hc
    simp only [String.data] at hc
    rcases List.mem_cons.mp hc with h | h
    · exact Or.inl h
    · exact Or.inr (mem_digits_isDigit (natDigits_spec n.natAbs).1 h)
  · rw [if_neg hneg] at hc
    exact Or.inr (mem_digits_isDigit (natDigits_spec n.natAbs).1 hc)

theorem isDigit_ne_alpha (c : Char) (h : c.isDigit = true) :
    c ≠ 'N' ∧ c ≠ 'T' ∧ c ≠ 'F' ∧ c ≠ '[' ∧ c ≠ '\'' ∧ c ≠ '"' ∧ c ≠ '%' ∧
    c ≠ '-' ∧ c ≠ '+' ∧ c ≠ ' ' := by
  refine ⟨?_, ?_, ?_, ?_, ?_, ?_, ?_, ?_, ?_, ?_⟩ <;>
    (rintro rfl; simp [Char.isDigit] at h)

theorem head_ne_of_ne {l : List Char} {c : Char} {t : List Char}
    (h : l.head? ≠ some c) : l ≠ c :: t := by
  intro heq
  rw [heq] at h
  simp at h

theorem parseStrLit_none_of_head (c : Char) (rest : List Char)
    (h1 : c ≠ '\'') (h2 : c ≠ '"') : parseStrLit (c :: rest) = none := by
  unfold parseStrLit
  simp [h1, h2]

theorem parseSign_of_digit (c : Char) (rest : List Char) (h : c.isDigit = true) :
    parseSign (c :: rest) = (false, c :: rest) := by
  obtain ⟨-, -, -, -, -, -, -, h1, h2, -⟩ := isDigit_ne_alpha c h
  unfold parseSign
  dsimp only
  rw [if_neg h1, if_neg h2]

theorem parseSign_minus (rest : List Char) : parseSign ('-' :: rest) = (true, rest) := by
  unfold parseSign
  dsimp only
  rw [if_pos rfl]

theorem takeWhile_digits_append (ip : List Char) (c : Char) (fp : List Char)
    (hip : ip.all Char.isDigit = true) (hc : c.isDigit = false) :
    (ip ++ c :: fp).takeWhile Char.isDigit = ip := by
  induction ip with
  | nil => simp [List.takeWhile_cons, hc]
  | cons d ds ih =>
    simp only [List.all_cons, Bool.and_eq_true] at hip
    simp [List.takeWhile_cons, hip.1, ih hip.2]

/-- The integer path of `parseNumLit` on canonical digits. -/
theorem parseNumLit_int_core (sign : Bool) (l : List Char) (m : Nat)
    (hps : parseSign l = (sign, natDigits m)) :
    parseNumLit l = some (.pyInt (if sign then -(m : Int) else (m : Int))) := by
  obtain ⟨hAll, hVal, hne, hValid⟩ := natDigits_spec m
  unfold parseNumLit
  rw [hps]
  dsimp only
  rw [if_neg (by simp [hne] : ¬((natDigits m).isEmpty = true)), if_pos hAll,
    if_pos hValid, hVal]

/-- `parseNumLit` accepts the canonical digits of a natural number. -/
theorem parseNumLit_natDigits (m : Nat) :
    parseNumLit (natDigits m) = some (.pyInt (m : Int)) := by
  obtain ⟨hAll, hVal, hne, hValid⟩ := natDigits_spec m
  cases hl : natDigits m with
  | nil => exact absurd hl hne
  | cons c rest =>
    have hcd : c.isDigit = true := by
      rw [hl] at hAll
      exact mem_digits_isDigit hAll (List.mem_cons_self c rest)
    have := parseNumLit_int_core false (natDigits m) m
      (by rw [hl]; exact parseSign_of_digit c rest hcd)
    rw [hl] at this
    simpa using this

theorem parseNumLit_neg_natDigits (m : Nat) :
    parseNumLit ('-' :: natDigits m) = some (.pyInt (-(m : Int))) := by
  have := parseNumLit_int_core true ('-' :: natDigits m) m (parseSign_minus _)
  simpa using this

/-- The float path of `parseNumLit`: kernel lemma on the unsigned part. -/
theorem parseNumLit_float_core (sign : Bool) (ip fp : List Char) (l : List Char)
    (hps : parseSign l = (sign, ip ++ '.' :: fp))
    (hipne : ip ≠ []) (hipd : ip.all Char.isDigit = true)
    (hfpd : fp.all Char.isDigit = true) :
    parseNumLit l = some (.pyFloat sign ip fp) := by
  have hdot : ('.' : Char).isDigit = false := by decide
  have hallfalse : ¬((ip ++ '.' :: fp).all Char.isDigit = true) := by
    rw [List.all_append]
    simp [hdot]
  have hiplen : (ip ++ '.' :: fp).takeWhile Char.isDigit = ip :=
    takeWhile_digits_append ip '.' fp hipd hdot
  have hne2 : ¬((ip ++ '.' :: fp).isEmpty = true) := by
    cases ip with
    | nil => exact absurd rfl hipne
    | cons a b => simp
  unfold parseNumLit
  rw [hps]
  dsimp only
  rw [if_neg hne2, if_neg hallfalse, hiplen, List.drop_left]
  simp [hfpd, hipne]

/-- `parseNumLit` accepts a decimal float literal and keeps its digits. -/
theorem parseNumLit_float (neg : Bool) (ip fp : List Char)
    (hipne : ip ≠ []) (hipd : ip.all Char.isDigit = true)
    (hfpd : fp.all Char.isDigit = true) :
    parseNumLit ((if neg then ['-'] else []) ++ ip ++ '.' :: fp) =
      some (.pyFloat neg ip fp) := by
  apply parseNumLit_float_core neg ip fp _ _ hipne hipd hfpd
  cases neg with
  | false =>
    simp only [Bool.false_eq_true, if_false, List.nil_append]
    cases ip with
    | nil => exact absurd rfl hipne
    | cons a b =>
      have had : a.isDigit = true :=
        mem_digits_isDigit hipd (List.mem_cons_self a b)
      rw [show ((a :: b) ++ '.' :: fp) = a :: (b ++ '.' :: fp) from rfl]
      rw [parseSign_of_digit a (b ++ '.' :: fp) had]
  | true =>
    simp only [if_pos trivial, List.singleton_append]
    exact parseSign_minus (ip ++ '.' :: fp)

/-- Step `parseLit` to `parseNumLit` for stripped inputs that are not
keywords, lists or quoted strings. -/
theorem parseLit_scalar (fuel : Nat) (c : Char) (rest : List Char)
    (hid : stripL (c :: rest) = c :: rest)
    (hN : c :: rest ≠ "None".data) (hT : c :: rest ≠ "True".data)
    (hF : c :: rest ≠ "False".data)
    (h1 : c ≠ '[') (h2 : c ≠ '\'') (h3 : c ≠ '"') :
    parseLit (fuel + 1) (c :: rest) = parseNumLit (c :: rest) := by
  rw [parseLit]
  dsimp only
  rw [hid, if_neg hN, if_neg hT, if_neg hF]
  dsimp only
  rw [if_neg h1, parseStrLit_none_of_head c rest h2 h3]

/-- Characters of `intRepr` rule out whitespace and delimiters. -/
theorem intRepr_char_facts (n : Int) :
    (∀ c ∈ (intRepr n).data, pySpace c = false) ∧
    (∀ c ∈ (intRepr n).data, c ≠ '%') := by
  constructor <;> intro c hc <;> rcases intRepr_chars n c hc with h | h
  · subst h; decide
  · exact isDigit_not_space c h
  · subst h; decide
  · exact (isDigit_ne_alpha c h).2.2.2.2.2.2.1

theorem intRepr_head (n : Int) :
    ∃ c rest, (intRepr n).data = c :: rest ∧ (c = '-' ∨ c.isDigit = true) := by
  unfold intRepr
  by_cases hneg : n < 0
  · rw [if_pos hneg]
    exact ⟨'-', natDigits n.natAbs, rfl, Or.inl rfl⟩
  · rw [if_neg hneg]
    obtain ⟨hAll, -, hne, -⟩ := natDigits_spec n.natAbs
    cases hl : natDigits n.natAbs with
    | nil => exact absurd hl hne
    | cons c rest =>
      refine ⟨c, rest, rfl, Or.inr ?_⟩
      rw [hl] at hAll
      exact mem_digits_isDigit hAll (List.mem_cons_self c rest)

theorem pyLiteralEval_intRepr (n : Int) :
    pyLiteralEval (intRepr n) = some (.pyInt n) := by
  obtain ⟨hsp, -⟩ := intRepr_char_facts n
  obtain ⟨c, rest, hdata, hcls⟩ := intRepr_head n
  have hid : stripL (c :: rest) = c :: rest := by
    rw [← hdata]; exact stripL_id _ hsp
  have hkey : ∀ (k : Char) (kt : List Char), k = 'N' ∨ k = 'T' ∨ k = 'F' ∨
      k = '[' ∨ k = '\'' ∨ k = '"' → c :: rest ≠ k :: kt := by
    intro k kt hk
    intro heq
    have hck : c = k := (List.cons.injEq .. ▸ heq).1
    rcases hcls with hm | hd
    · subst hm
      rcases hk with rfl | rfl | rfl | rfl | rfl | rfl <;> simp at hck
    · obtain ⟨e1, e2, e3, e4, e5, e6, -⟩ := isDigit_ne_alpha c hd
      rcases hk with rfl | rfl | rfl | rfl | rfl | rfl <;> simp_all
  have hc1 : c ≠ '[' := by
    rcases hcls with hm | hd
    · subst hm; decide
    · exact (isDigit_ne_alpha c hd).2.2.2.1
  have hc2 : c ≠ '\'' := by
    rcases hcls with hm | hd
    · subst hm; decide
    · exact (isDigit_ne_alpha c hd).2.2.2.2.1
  have hc3 : c ≠ '"' := by
    rcases hcls with hm | hd
    · subst hm; decide
    · exact (isDigit_ne_alpha c hd).2.2.2.2.2.1
  unfold pyLiteralEval
  rw [hdata]
  rw [show (c :: rest).length + 2 = ((c :: rest).length + 1) + 1 from rfl]
  rw [parseLit_scalar ((c :: rest).length + 1) c rest hid
    (hkey 'N' "one".data (by tauto)) (hkey 'T' "rue".data (by tauto))
    (hkey 'F' "alse".data (by tauto)) hc1 hc2 hc3]
  rw [← hdata]
  unfold intRepr
  by_cases hneg : n < 0
  · rw [if_pos hneg]
    rw [show (⟨'-' :: natDigits n.natAbs⟩ : String).data
      = '-' :: natDigits n.natAbs from rfl]
    rw [parseNumLit_neg_natDigits]
    congr 1
    congr 1
    omega
  · rw [if_neg hneg]
    rw [show (⟨natDigits n.natAbs⟩ : String).data = natDigits n.natAbs from rfl]
    rw [parseNumLit_natDigits]
    congr 1
    congr 1
    omega

theorem pyEvaluate_intRepr (n : Int) : pyEvaluate (intRepr n) = .pyInt n := by
  unfold pyEvaluate
  rw [pyLiteralEval_intRepr]

theorem pyEvaluate_boolRepr (b : Bool) : pyEvaluate (boolRepr b) = .pyBool b := by
  cases b <;> rfl

theorem floatRepr_data (neg : Bool) (ip fp : List Char) :
    (floatRepr neg ip fp).data = (if neg then ['-'] else []) ++ ip ++ '.' :: fp := rfl

theorem floatRepr_char_facts (neg : Bool) (ip fp : List Char)
    (hipd : ip.all Char.isDigit = true) (hfpd : fp.all Char.isDigit = true) :
    (∀ c ∈ (floatRepr neg ip fp).data, pySpace c = false) ∧
    (∀ c ∈ (floatRepr neg ip fp).data, c ≠ '%') := by
  have hcls : ∀ c ∈ (floatRepr neg ip fp).data,
      c = '-' ∨ c = '.' ∨ c.isDigit = true := by
    intro c hc
    rw [floatRepr_data] at hc
    rcases List.mem_append.mp hc with h | h
    · rcases List.mem_append.mp h with h | h
      · cases neg with
        | true => simp at h; exact Or.inl h
        | false => simp at h
      · exact Or.inr (Or.inr (mem_digits_isDigit hipd h))
    · rcases List.mem_cons.mp h with h | h
      · exact Or.inr (Or.inl h)
      · exact Or.inr (Or.inr (mem_digits_isDigit hfpd h))
  constructor <;> intro c hc <;> rcases hcls c hc with h | h | h
  · subst h; decide
  · subst h; decide
  · exact isDigit_not_space c h
  · subst h; decide
  · subst h; decide
  · exact (isDigit_ne_alpha c h).2.2.2.2.2.2.1

theorem pyLiteralEval_floatRepr (neg : Bool) (ip fp : List Char)
    (hipne : ip ≠ []) (hipd : ip.all Char.isDigit = true)
    (hfpd : fp.all Char.isDigit = true) :
    pyLiteralEval (floatRepr neg ip fp) = some (.pyFloat neg ip fp) := by
  obtain ⟨hsp, -⟩ := floatRepr_char_facts neg ip fp hipd hfpd
  have hshape : ∃ c rest, (floatRepr neg ip fp).data = c :: rest ∧
      (c = '-' ∨ c.isDigit = true) := by
    rw [floatRepr_data]
    cases neg with
    | true => exact ⟨'-', ip ++ '.' :: fp, rfl, Or.inl rfl⟩
    | false =>
      cases ip with
      | nil => exact absurd rfl hipne
      | cons a b =>
        exact ⟨a, b ++ '.' :: fp, rfl,
          Or.inr (mem_digits_isDigit hipd (List.mem_cons_self a b))⟩
  obtain ⟨c, rest, hdata, hcls⟩ := hshape
  have hid : stripL (c :: rest) = c :: rest := by
    rw [← hdata]; exact stripL_id _ hsp
  have hkey : ∀ (k : Char) (kt : List Char), k = 'N' ∨ k = 'T' ∨ k = 'F' ∨
      k = '[' ∨ k = '\'' ∨ k = '"' → c :: rest ≠ k :: kt := by
    intro k kt hk heq
    have hck : c = k := (List.cons.injEq .. ▸ heq).1
    rcases hcls with hm | hd
    · subst hm
      rcases hk with rfl | rfl | rfl | rfl | rfl | rfl <;> simp at hck
    · obtain ⟨e1, e2, e3, e4, e5, e6, -⟩ := isDigit_ne_alpha c hd
      rcases hk with rfl | rfl | rfl | rfl | rfl | rfl <;> simp_all
  have hc1 : c ≠ '[' := by
    rcases hcls with hm | hd
    · subst hm; decide
    · exact (isDigit_ne_alpha c hd).2.2.2.1
  have hc2 : c ≠ '\'' := by
    rcases hcls with hm | hd
    · subst hm; decide
    · exact (isDigit_ne_alpha c hd).2.2.2.2.1
  have hc3 : c ≠ '"' := by
    rcases hcls with hm | hd
    · subst hm; decide
    · exact (isDigit_ne_alpha c hd).2.2.2.2.2.1
  unfold pyLiteralEval
  rw [hdata]
  rw [show (c :: rest).length + 2 = ((c :: rest).length + 1) + 1 from rfl]
  rw [parseLit_scalar ((c :: rest).length + 1) c rest hid
    (hkey 'N' "one".data (by tauto)) (hkey 'T' "rue".data (by tauto))
    (hkey 'F' "alse".data (by tauto)) hc1 hc2 hc3]
  rw [← hdata, floatRepr_data]
  exact parseNumLit_float neg ip fp hipne hipd hfpd

theorem pyEvaluate_floatRepr (neg : Bool) (ip fp : List Char)
    (hipne : ip ≠ []) (hipd : ip.all Char.isDigit = true)
    (hfpd : fp.all Char.isDigit = true) :
    pyEvaluate (floatRepr neg ip fp) = .pyFloat neg ip fp := by
  unfold pyEvaluate
  rw [pyLiteralEval_floatRepr neg ip fp hipne hipd hfpd]

theorem pyEvaluate_of_not_literal (s : String) (h : pyLiteralEval s = none) :
    pyEvaluate s = .pyStr s := by
  unfold pyEvaluate
  rw [h]

/-! ### The alphabetic fallback class

A nonempty string of ASCII letters other than the keywords `None`,
`True` and `False` is rejected by `ast.literal_eval` (a bare name is not
a literal), and the model provably rejects it as well, so on this class
`_evaluate` returns the string unchanged in both the code and the
model. -/

theorem isAlpha_toNat (c : Char) (h : c.isAlpha = true) :
    (65 ≤ c.toNat ∧ c.toNat ≤ 90) ∨ (97 ≤ c.toNat ∧ c.toNat ≤ 122) := by
  unfold Char.isAlpha Char.isUpper Char.isLower at h
  simp only [Bool.or_eq_true, Bool.and_eq_true, decide_eq_true_eq] at h
  unfold Char.toNat
  rcases h with ⟨h1, h2⟩ | ⟨h1, h2⟩
  · exact Or.inl ⟨h1, h2⟩
  · exact Or.inr ⟨h1, h2⟩

theorem isDigit_toNat (c : Char) (h : c.isDigit = true) :
    48 ≤ c.toNat ∧ c.toNat ≤ 57 := by
  unfold Char.isDigit at h
  simp only [Bool.and_eq_true, decide_eq_true_eq] at h
  unfold Char.toNat
  exact ⟨h.1, h.2⟩

theorem isAlpha_not_digit (c : Char) (h : c.isAlpha = true) :
    c.isDigit = false := by
  cases hd : c.isDigit
  · rfl
  · exfalso
    obtain ⟨d1, d2⟩ := isDigit_toNat c hd
    rcases isAlpha_toNat c h with ⟨h1, h2⟩ | ⟨h1, h2⟩ <;> omega

theorem isAlpha_not_space (c : Char) (h : c.isAlpha = true) :
    pySpace c = false := by
  unfold pySpace
  simp only [Bool.or_eq_false_iff, decide_eq_false_iff_not]
  refine ⟨⟨⟨⟨⟨?_, ?_⟩, ?_⟩, ?_⟩, ?_⟩, ?_⟩ <;>
    (rintro rfl; exact absurd h (by decide))

theorem isAlpha_ne (c : Char) (h : c.isAlpha = true) :
    c ≠ '-' ∧ c ≠ '+' ∧ c ≠ '.' ∧ c ≠ '[' ∧ c ≠ '\'' ∧ c ≠ '"' ∧ c ≠ '%' := by
  refine ⟨?_, ?_, ?_, ?_, ?_, ?_, ?_⟩ <;>
    (rintro rfl; exact absurd h (by decide))

theorem parseNumLit_none_of_alpha (c : Char) (rest : List Char)
    (hc : c.isAlpha = true) : parseNumLit (c :: rest) = none := by
  obtain ⟨h1, h2, h3, -, -, -, -⟩ := isAlpha_ne c hc
  have hdig : c.isDigit = false := isAlpha_not_digit c hc
  have hsign : parseSign (c :: rest) = (false, c :: rest) := by
    unfold parseSign
    dsimp only
    rw [if_neg h1, if_neg h2]
  unfold parseNumLit
  rw [hsign]
  dsimp only
  rw [if_neg (by simp), if_neg (by simp [List.all_cons, hdig])]
  rw [show (c :: rest).takeWhile Char.isDigit = [] from by
    simp [List.takeWhile_cons, hdig]]
  simp only [List.length_nil, List.drop_zero]
  split
  next fp heq =>
    exact absurd (List.head_eq_of_cons_eq heq) h3
  next => rfl

theorem parseLit_none_of_alpha (l : List Char) (hne : l ≠ [])
    (hall : ∀ c ∈ l, c.isAlpha = true)
    (h1 : l ≠ "None".data) (h2 : l ≠ "True".data) (h3 : l ≠ "False".data) :
    ∀ fuel, parseLit fuel l = none := by
  intro fuel
  cases fuel with
  | zero => rfl
  | succ f =>
    rcases hl : l with _ | ⟨c, rest⟩
    · exact absurd hl hne
    · subst hl
      have hcalpha : c.isAlpha = true := hall c (List.mem_cons_self c rest)
      have hstrip : stripL (c :: rest) = c :: rest :=
        stripL_id _ (fun x hx => isAlpha_not_space x (hall x hx))
      rw [parseLit]
      dsimp only
      rw [hstrip, if_neg h1, if_neg h2, if_neg h3]
      dsimp only
      rw [if_neg ((isAlpha_ne c hcalpha).2.2.2.1),
        parseStrLit_none_of_head c rest ((isAlpha_ne c hcalpha).2.2.2.2.1)
          ((isAlpha_ne c hcalpha).2.2.2.2.2.1)]
      exact parseNumLit_none_of_alpha c rest hcalpha

theorem pyLiteralEval_alpha (s : String) (hne : s.data ≠ [])
    (hall : ∀ c ∈ s.data, c.isAlpha = true)
    (h1 : s.data ≠ "None".data) (h2 : s.data ≠ "True".data)
    (h3 : s.data ≠ "False".data) : pyLiteralEval s = none := by
  unfold pyLiteralEval
  exact parseLit_none_of_alpha s.data hne hall h1 h2 h3 _

theorem string_data_ne {s t : String} (h : s ≠ t) : s.data ≠ t.data := by
  intro hd
  apply h
  cases s with
  | mk l =>
    cases t with
    | mk l2 => exact congrArg String.mk hd

/-! ### The `set`/`get` pipeline -/

theorem setOp_eq_present (r : Reader) (key value : String) (sectName : Option String)
    (hFile : r.hasFile = true)
    (hsect : ¬ pyLower (sectName.getD mainSection) = "default")
    (hok : beforeSetOk value = true)
    (opts0 : Options)
    (hp : alookup r.store (sectName.getD mainSection) = some opts0) :
    setOp r key value sectName false =
      (none, { r with
        store := aset r.store (sectName.getD mainSection)
          (aset opts0 (optionxform r.caseSensitive key) value)
        buffer := overlayWrite
          (serializeStore (aset r.store (sectName.getD mainSection)
            (aset opts0 (optionxform r.caseSensitive key) value)))
          r.buffer }) := by
  unfold setOp addSectionOp parserSetOp afterSetWrite writeConfigOp
  dsimp only
  rw [if_neg hsect, hp]
  dsimp only
  rw [if_pos hok, hp]
  dsimp only
  rw [if_pos hFile]
  rfl

theorem setOp_eq_absent (r : Reader) (key value : String) (sectName : Option String)
    (hFile : r.hasFile = true)
    (hsect : ¬ pyLower (sectName.getD mainSection) = "default")
    (hok : beforeSetOk value = true)
    (hp : alookup r.store (sectName.getD mainSection) = none) :
    setOp r key value sectName false =
      (none, { r with
        store := aset (r.store ++ [(sectName.getD mainSection, [])])
          (sectName.getD mainSection)
          [(optionxform r.caseSensitive key, value)]
        buffer := overlayWrite
          (serializeStore (aset (r.store ++ [(sectName.getD mainSection, [])])
            (sectName.getD mainSection)
            [(optionxform r.caseSensitive key, value)]))
          r.buffer }) := by
  have hlook : alookup (r.store ++ [(sectName.getD mainSection, [])])
      (sectName.getD mainSection) = some [] := by
    rw [alookup_append_right _ _ _ hp]
    simp [alookup]
  unfold setOp addSectionOp parserSetOp afterSetWrite writeConfigOp
  dsimp only
  rw [if_neg hsect, hp]
  dsimp only
  rw [if_pos hok, hlook]
  dsimp only
  rw [if_pos hFile]
  rfl

theorem getOp_hit (r : Reader) (key : String) (sectName : Option String)
    (evaluate : Bool) (opts : Options) (v : String)
    (hsect : alookup r.store (sectName.getD mainSection) = some opts)
    (hkey : alookup opts (optionxform r.caseSensitive key) = some v)
    (hv : ∀ c ∈ v.data, c ≠ '%') :
    getOp r key sectName evaluate none false =
      (.ok (if evaluate then pyEvaluate v else .pyStr v), r) := by
  unfold getOp getRawOp parserGetOp
  dsimp only
  rw [hsect]
  dsimp only
  rw [hkey]
  dsimp only
  rw [beforeGet_no_pct _ _ _ hv]

/-- Field equations for a successful `set`. -/
theorem setOp_fields (r : Reader) (key value : String) (sectName : Option String)
    (hFile : r.hasFile = true)
    (hsect : ¬ pyLower (sectName.getD mainSection) = "default")
    (hok : beforeSetOk value = true) :
    (setOp r key value sectName false).1 = none ∧
    (setOp r key value sectName false).2.caseSensitive = r.caseSensitive ∧
    (setOp r key value sectName false).2.hasFile = r.hasFile ∧
    ∃ opts0, (setOp r key value sectName false).2.store =
        aset (if (alookup r.store (sectName.getD mainSection)).isSome then r.store
              else r.store ++ [(sectName.getD mainSection, [])])
          (sectName.getD mainSection)
          (aset opts0 (optionxform r.caseSensitive key) value) ∧
      (alookup r.store (sectName.getD mainSection) = some opts0 ∨ opts0 = []) := by
  cases hp : alookup r.store (sectName.getD mainSection) with
  | some opts0 =>
    rw [setOp_eq_present r key value sectName hFile hsect hok opts0 hp]
    refine ⟨rfl, rfl, rfl, opts0, ?_, Or.inl rfl⟩
    simp
  | none =>
    rw [setOp_eq_absent r key value sectName hFile hsect hok hp]
    refine ⟨rfl, rfl, rfl, [], ?_, Or.inr rfl⟩
    simp [aset]

/-- After a successful `set` of a percent-free value, `get` on the same
key and section returns it (evaluated as requested). -/
theorem setThenGet (r : Reader) (key value : String) (sectName : Option String)
    (evaluate : Bool)
    (hFile : r.hasFile = true)
    (hsect : ¬ pyLower (sectName.getD mainSection) = "default")
    (hval : ∀ c ∈ value.data, c ≠ '%') :
    (setOp r key value sectName false).1 = none ∧
    (getOp (setOp r key value sectName false).2 key sectName evaluate none false).1
      = .ok (if evaluate then pyEvaluate value else .pyStr value) := by
  have hok : beforeSetOk value = true := beforeSetOk_no_pct value hval
  obtain ⟨h1, hcs, -, opts0, hst, -⟩ :=
    setOp_fields r key value sectName hFile hsect hok
  refine ⟨h1, ?_⟩
  rw [getOp_hit ((setOp r key value sectName false).2) key sectName evaluate
    (aset opts0 (optionxform ((setOp r key value sectName false).2).caseSensitive key) value)
    value ?_ ?_ hval]
  · rw [hst, hcs]
    exact alookup_aset_self _ _ _
  · exact alookup_aset_self _ _ _

/-! ### The claims -/

/-- A `ConfigReader('settings.ini')` built over a missing file with the
pristine class defaults: the state every claim scenario starts from. -/
def freshReader : Reader := (construct initialDefaults [] false).2.1

/-- C1: the claim says `get` on a missing key with no default fails with
`MissingOptionError`.  The code does not: the miss is swallowed, the
placeholder string `"None"` is kept, and `get` returns the evaluated
`None` value (the string `"None"` with `evaluate=false`).
`MissingOptionError` is defined in `exceptions.py` but never raised by
`reader.py`, while the tests (`testconfigreader.py:144` and others)
assert it is raised — the code contradicts its own test suite. -/
theorem claim_C1_get_missing_returns_none :
    (getOp freshReader "Sample" (some "MainSection") true none false).1
      = .ok PyValue.pyNone ∧
    (getOp freshReader "Sample" (some "MainSection") false none false).1
      = .ok (.pyStr "None") := ⟨rfl, rfl⟩

/-- C2 (amended): for every key and every value whose string form contains
no percent sign, `set(key, value, section)` followed by
`get(key, section, evaluate=false)` returns exactly the stored string.
(Values containing percent signs pass through the INI interpolation layer
and need not round-trip — see the counterexample.) -/
theorem claim_C2_roundtrip (r : Reader) (key value : String)
    (sectName : Option String)
    (hFile : r.hasFile = true)
    (hsect : ¬ pyLower (sectName.getD mainSection) = "default")
    (hval : ∀ c ∈ value.data, c ≠ '%') :
    (setOp r key value sectName false).1 = none ∧
    (getOp (setOp r key value sectName false).2 key sectName false none false).1
      = .ok (.pyStr value) := by
  have h := setThenGet r key value sectName false hFile hsect hval
  simpa using h

theorem claim_C2_witness :
    freshReader.hasFile = true ∧
    ¬ pyLower ((none : Option String).getD mainSection) = "default" ∧
    (∀ c ∈ "hello world".data, c ≠ '%') ∧
    ((setOp freshReader "z" "hello world" none false).1 = none ∧
     (getOp (setOp freshReader "z" "hello world" none false).2
       "z" none false none false).1 = .ok (.pyStr "hello world")) :=
  ⟨rfl, by decide, by decide,
    claim_C2_roundtrip freshReader "z" "hello world" none rfl (by decide)
      (by decide)⟩

/-- C2 counterexample: the claim as stated fails for values containing
interpolation references.  Setting `'%(reader)s!'` succeeds, but reading
it back with `evaluate=false` returns the interpolated `'configreader!'`,
not the stringified original value. -/
theorem claim_C2_counterexample :
    (setOp freshReader "y" "%(reader)s!" none false).1 = none ∧
    (getOp (setOp freshReader "y" "%(reader)s!" none false).2
      "y" none false none false).1 = .ok (.pyStr "configreader!") ∧
    PyValue.pyStr "configreader!" ≠ PyValue.pyStr "%(reader)s!" :=
  ⟨rfl, rfl, fun h => absurd (PyValue.pyStr.inj h) (by decide)⟩

/-- C3 (amended): `_evaluate` applies full `ast.literal_eval` with a
fallback to `str(value)` on `ValueError`/`SyntaxError`.  A boolean,
integer, or decimal float written via `set` as its string form is
returned by `get` with `evaluate=true` as the original typed value, and
a stored nonempty purely-alphabetic string other than the keywords
`None`/`True`/`False` - a bare name, which `ast.literal_eval` always
rejects - is returned unchanged without raising.  (A string that is a
literal of another type — e.g. a list display — is evaluated to that
value rather than returned unchanged; see the counterexample.) -/
theorem claim_C3_evaluate (r : Reader) (key : String) (sectName : Option String)
    (hFile : r.hasFile = true)
    (hsect : ¬ pyLower (sectName.getD mainSection) = "default")
    (n : Int) (b : Bool) (neg : Bool) (ip fp : List Char)
    (hipne : ip ≠ []) (hipd : ip.all Char.isDigit = true)
    (hfpd : fp.all Char.isDigit = true)
    (s : String) (hse : s.data ≠ [])
    (hsalpha : ∀ c ∈ s.data, c.isAlpha = true)
    (hn1 : s ≠ "None") (hn2 : s ≠ "True") (hn3 : s ≠ "False") :
    ((setOp r key (intRepr n) sectName false).1 = none ∧
     (getOp (setOp r key (intRepr n) sectName false).2
       key sectName true none false).1 = .ok (.pyInt n)) ∧
    ((setOp r key (boolRepr b) sectName false).1 = none ∧
     (getOp (setOp r key (boolRepr b) sectName false).2
       key sectName true none false).1 = .ok (.pyBool b)) ∧
    ((setOp r key (floatRepr neg ip fp) sectName false).1 = none ∧
     (getOp (setOp r key (floatRepr neg ip fp) sectName false).2
       key sectName true none false).1 = .ok (.pyFloat neg ip fp)) ∧
    ((setOp r key s sectName false).1 = none ∧
     (getOp (setOp r key s sectName false).2
       key sectName true none false).1 = .ok (.pyStr s)) := by
  refine ⟨?_, ?_, ?_, ?_⟩
  · have h := setThenGet r key (intRepr n) sectName true hFile hsect
      (intRepr_char_facts n).2
    rw [if_pos rfl, pyEvaluate_intRepr] at h
    exact h
  · have h := setThenGet r key (boolRepr b) sectName true hFile hsect
      (by cases b <;> decide)
    rw [if_pos rfl, pyEvaluate_boolRepr] at h
    exact h
  · have h := setThenGet r key (floatRepr neg ip fp) sectName true hFile hsect
      (floatRepr_char_facts neg ip fp hipd hfpd).2
    rw [if_pos rfl, pyEvaluate_floatRepr neg ip fp hipne hipd hfpd] at h
    exact h
  · have hs : pyLiteralEval s = none :=
      pyLiteralEval_alpha s hse hsalpha (string_data_ne hn1)
        (string_data_ne hn2) (string_data_ne hn3)
    have hsp : ∀ c ∈ s.data, c ≠ '%' :=
      fun c hc => (isAlpha_ne c (hsalpha c hc)).2.2.2.2.2.2
    have h := setThenGet r key s sectName true hFile hsect hsp
    rw [if_pos rfl, pyEvaluate_of_not_literal s hs] at h
    exact h

theorem claim_C3_witness :
    freshReader.hasFile = true ∧
    ¬ pyLower ((none : Option String).getD mainSection) = "default" ∧
    (['1'] : List Char) ≠ [] ∧ (['1'] : List Char).all Char.isDigit = true ∧
    (['5'] : List Char).all Char.isDigit = true ∧
    "configreader".data ≠ [] ∧
    (∀ c ∈ "configreader".data, c.isAlpha = true) ∧
    "configreader" ≠ "None" ∧ "configreader" ≠ "True" ∧
    "configreader" ≠ "False" ∧
    (((setOp freshReader "k" (intRepr (-12)) none false).1 = none ∧
      (getOp (setOp freshReader "k" (intRepr (-12)) none false).2
        "k" none true none false).1 = .ok (.pyInt (-12))) ∧
     ((setOp freshReader "k" (boolRepr true) none false).1 = none ∧
      (getOp (setOp freshReader "k" (boolRepr true) none false).2
        "k" none true none false).1 = .ok (.pyBool true)) ∧
     ((setOp freshReader "k" (floatRepr false ['1'] ['5']) none false).1 = none ∧
      (getOp (setOp freshReader "k" (floatRepr false ['1'] ['5']) none false).2
        "k" none true none false).1 = .ok (.pyFloat false ['1'] ['5'])) ∧
     ((setOp freshReader "k" "configreader" none false).1 = none ∧
      (getOp (setOp freshReader "k" "configreader" none false).2
        "k" none true none false).1 = .ok (.pyStr "configreader"))) :=
  ⟨rfl, by decide, by decide, by decide, by decide, by decide, by decide,
    by decide, by decide, by decide,
    claim_C3_evaluate freshReader "k" none rfl (by decide) (-12) true false
      ['1'] ['5'] (by decide) (by decide) (by decide) "configreader"
      (by decide) (by decide) (by decide) (by decide) (by decide)⟩

/-- C3 counterexample: the stored string `"[1, 2]"` is not a boolean,
integer or float literal, yet `get` with `evaluate=true` does not return
it unchanged: it evaluates to a Python list. -/
theorem claim_C3_counterexample :
    (setOp freshReader "k" "[1, 2]" none false).1 = none ∧
    (getOp (setOp freshReader "k" "[1, 2]" none false).2
      "k" none true none false).1 = .ok (.pyList [.pyInt 1, .pyInt 2]) ∧
    PyValue.pyList [.pyInt 1, .pyInt 2] ≠ PyValue.pyStr "[1, 2]" :=
  ⟨rfl, rfl, fun h => PyValue.noConfusion h⟩

/-- C6 (amended): *when the in-memory buffer is in sync with the store*
(as on a freshly constructed reader over an empty target, and after any
remove operation, which truncates), removing a key that is absent from
an *existing* section is a complete no-op (store, buffer, disk and all
flags unchanged, no error), and so is removing a section that does not
exist.  The sync condition is essential: both removals first re-read the
buffer, `_write_config` rewrites without truncating, and a stale buffer
tail can resurrect ghost options into the store, so the removal is not a
no-op in general — and removing a key of a *nonexistent* section fails
with the no-section kind.  Both failure modes are in the
counterexample. -/
theorem claim_C6_noop_removals (r : Reader) (key sect sect2 : String)
    (hFile : r.hasFile = true)
    (hsync : readInto r.caseSensitive r.store r.buffer = (none, r.store))
    (hbuf : serializeStore r.store = r.buffer)
    (opts : Options)
    (hopts : alookup r.store sect = some opts)
    (hkey : alookup opts (optionxform r.caseSensitive key) = none)
    (hsect2 : alookup r.store sect2 = none) :
    removeOptionOp r key (some sect) false = (none, r) ∧
    removeSectionOp r sect2 = (none, r) := by
  constructor
  · unfold removeOptionOp
    dsimp only
    rw [if_pos hFile, hsync]
    dsimp only [Option.getD]
    rw [hopts]
    dsimp only
    rw [aremove_of_absent _ _ hkey, aset_of_present_same _ _ _ hopts, hbuf]
    simp
  · unfold removeSectionOp
    rw [if_pos hFile, hsync]
    dsimp only
    rw [aremove_of_absent _ _ hsect2, hbuf]

theorem claim_C6_witness :
    freshReader.hasFile = true ∧
    readInto freshReader.caseSensitive freshReader.store freshReader.buffer
      = (none, freshReader.store) ∧
    serializeStore freshReader.store = freshReader.buffer ∧
    alookup freshReader.store "main" = some [("reader", "configreader")] ∧
    alookup [("reader", "configreader")]
      (optionxform freshReader.caseSensitive "nokey") = none ∧
    alookup freshReader.store "ghost" = none ∧
    (removeOptionOp freshReader "nokey" (some "main") false = (none, freshReader) ∧
     removeSectionOp freshReader "ghost" = (none, freshReader)) :=
  ⟨rfl, rfl, rfl, rfl, rfl, rfl,
    claim_C6_noop_removals freshReader "nokey" "main" "ghost" rfl rfl rfl
      [("reader", "configreader")] rfl rfl rfl⟩

/-- A reader whose buffer is out of sync with its store: the second
`set` shrinks the serialization, and `_write_config` (seek-to-zero
write, no truncate) leaves the stale tail `"x = 5\n\n"` of the first
serialization in the buffer after `"[other]\nz = B\n\n"`. -/
def dirtyReader : Reader :=
  (setOp (setOp freshReader "z" "AAAx = 5" (some "other") false).2
    "z" "B" (some "other") false).2

/-- C6 counterexample, both failure modes of the original no-op claim:
(1) `remove_option` with a key of a section that does not exist raises
`NoSectionError` (uncaught in `reader.py`); (2) on a reader with a stale
buffer tail, `remove_option('nokey', 'other')` — key absent, section
present — returns no error but is *not* a no-op: re-reading the
never-truncated buffer resurrects the ghost option `x = 5` into
`other`. -/
theorem claim_C6_counterexample :
    (removeOptionOp freshReader "k" (some "nosect") false).1
      = some PyErr.noSectionError ∧
    alookup dirtyReader.store "other" = some [("z", "B")] ∧
    (removeOptionOp dirtyReader "nokey" (some "other") false).1 = none ∧
    alookup (removeOptionOp dirtyReader "nokey" (some "other") false).2.store
      "other" = some [("z", "B"), ("x", "5")] :=
  ⟨rfl, rfl, rfl, rfl⟩

/-- C8 (amended): *with the buffer in sync with the store* (fresh
reader, or after any remove, which truncates), `remove_section("main")`
succeeds, a following `get_items("main")` returns the null result, and
every other section's lookup is exactly what it was before the removal.
In general the frame half fails: `remove_section` first re-reads the
never-truncated buffer, and a stale tail can alter other sections — see
the counterexample. -/
theorem claim_C8_remove_main_frame (r : Reader)
    (hFile : r.hasFile = true)
    (hsync : readInto r.caseSensitive r.store r.buffer = (none, r.store)) :
    (removeSectionOp r "main").1 = none ∧
    getItemsOp (removeSectionOp r "main").2 "main" = .ok none ∧
    (∀ s, s ≠ "main" →
      alookup (removeSectionOp r "main").2.store s = alookup r.store s) := by
  unfold removeSectionOp
  rw [if_pos hFile, hsync]
  refine ⟨rfl, ?_, ?_⟩
  · unfold getItemsOp
    dsimp only
    rw [alookup_aremove_self]
  · intro s hs
    dsimp only
    exact alookup_aremove_ne _ _ _ hs

/-- A reader with a second section `other` holding `a = 1`, used as the
concrete instance for the frame claims. -/
def twoSectionReader : Reader := (setOp freshReader "a" "1" (some "other") false).2

theorem claim_C8_witness :
    twoSectionReader.hasFile = true ∧
    readInto twoSectionReader.caseSensitive twoSectionReader.store
      twoSectionReader.buffer = (none, twoSectionReader.store) ∧
    ((removeSectionOp twoSectionReader "main").1 = none ∧
     getItemsOp (removeSectionOp twoSectionReader "main").2 "main" = .ok none ∧
     (∀ s, s ≠ "main" →
       alookup (removeSectionOp twoSectionReader "main").2.store s
         = alookup twoSectionReader.store s)) :=
  ⟨rfl, rfl, claim_C8_remove_main_frame twoSectionReader rfl rfl⟩

/-- C8 counterexample: on a reader with a stale buffer tail,
`remove_section('main')` deletes `main` as claimed, but the re-read of
the never-truncated buffer resurrects the ghost option `x = 5` into
section `other`, so the other sections do *not* remain untouched. -/
theorem claim_C8_counterexample :
    alookup dirtyReader.store "other" = some [("z", "B")] ∧
    (removeSectionOp dirtyReader "main").1 = none ∧
    alookup (removeSectionOp dirtyReader "main").2.store "main" = none ∧
    alookup (removeSectionOp dirtyReader "main").2.store "other"
      = some [("z", "B"), ("x", "5")] :=
  ⟨rfl, rfl, rfl, rfl⟩

/-- C9 (amended): after `close()` the file object attribute is deleted,
so the operations that touch the backing stream (`set`, `remove_option`,
`remove_section`, `save`, a second `close`) fail with `AttributeError`
(no `ClosedResourceError` kind exists in the code), while purely
in-memory reads such as `get` still succeed on the parser state. -/
theorem claim_C9_closed_behaviour (r : Reader) (key value : String)
    (sectName : Option String) (k2 : String)
    (hclosed : r.hasFile = false)
    (hsect : ¬ pyLower (sectName.getD mainSection) = "default")
    (hval : ∀ c ∈ value.data, c ≠ '%')
    (opts : Options) (w : String)
    (hopts : alookup r.store (sectName.getD mainSection) = some opts)
    (hk2 : alookup opts (optionxform r.caseSensitive k2) = some w)
    (hw : ∀ c ∈ w.data, c ≠ '%') :
    (setOp r key value sectName false).1 = some .attributeError ∧
    (removeOptionOp r key sectName false).1 = some .attributeError ∧
    (removeSectionOp r (sectName.getD mainSection)).1 = some .attributeError ∧
    (saveOp r).1 = some .attributeError ∧
    (closeOp r false).1 = some .attributeError ∧
    (getOp r k2 sectName false none false).1 = .ok (.pyStr w) := by
  refine ⟨?_, ?_, ?_, ?_, ?_, ?_⟩
  · unfold setOp addSectionOp parserSetOp afterSetWrite writeConfigOp
    dsimp only
    rw [if_neg hsect, hopts]
    dsimp only
    rw [if_pos (beforeSetOk_no_pct value hval), hopts]
    dsimp only
    rw [hclosed]
    rw [if_neg (by simp)]
  · unfold removeOptionOp
    rw [hclosed]
    dsimp only
    rw [if_neg (by simp)]
  · unfold removeSectionOp
    rw [hclosed, if_neg (by simp)]
  · unfold saveOp
    rw [hclosed, if_neg (by simp)]
  · unfold closeOp
    rw [hclosed]
    rw [if_neg (by simp), if_neg (by simp)]
  · rw [getOp_hit r k2 sectName false opts w hopts hk2 hw]
    simp

/-- The fresh reader after `close()`. -/
def closedReader : Reader := (closeOp freshReader false).2

theorem claim_C9_witness :
    closedReader.hasFile = false ∧
    ¬ pyLower ((none : Option String).getD mainSection) = "default" ∧
    (∀ c ∈ "1".data, c ≠ '%') ∧
    alookup closedReader.store ((none : Option String).getD mainSection)
      = some [("reader", "configreader")] ∧
    alookup [("reader", "configreader")]
      (optionxform closedReader.caseSensitive "reader") = some "configreader" ∧
    (∀ c ∈ "configreader".data, c ≠ '%') ∧
    ((setOp closedReader "x" "1" none false).1 = some .attributeError ∧
     (removeOptionOp closedReader "x" none false).1 = some .attributeError ∧
     (removeSectionOp closedReader ((none : Option String).getD mainSection)).1
       = some .attributeError ∧
     (saveOp closedReader).1 = some .attributeError ∧
     (closeOp closedReader false).1 = some .attributeError ∧
     (getOp closedReader "reader" none false none false).1
       = .ok (.pyStr "configreader")) :=
  ⟨rfl, by decide, by decide, rfl, rfl, by decide,
    claim_C9_closed_behaviour closedReader "x" "1" none "reader" rfl (by decide)
      (by decide) [("reader", "configreader")] "configreader" rfl rfl (by decide)⟩

/-- C9 counterexample: after `close()`, `get` of an existing key still
succeeds (and no `ClosedResourceError` kind exists at all), so it is not
the case that every subsequent operation fails. -/
theorem claim_C9_counterexample :
    (closeOp freshReader false).1 = none ∧
    (getOp (closeOp freshReader false).2 "reader" none true none false).1
      = .ok (.pyStr "configreader") := ⟨rfl, rfl⟩

/-! ### Construction lemmas (for the class-defaults claims) -/

/-- Inversion of a successful `set` (no commit): the resulting store is
the old store (with the section possibly appended) with the transformed
key bound in the section; the bound value is the given one whenever it
passes `before_set` unchanged. -/
theorem setOp_inv {r : Reader} {key value : String} {sectName : Option String}
    {r' : Reader}
    (h : setOp r key value sectName false = (none, r')) :
    r'.caseSensitive = r.caseSensitive ∧ r'.hasFile = r.hasFile ∧
    ∃ store1 opts0 w,
      (store1 = r.store ∨ store1 = r.store ++ [(sectName.getD mainSection, [])]) ∧
      alookup store1 (sectName.getD mainSection) = some opts0 ∧
      (beforeSetOk value = true → w = value) ∧
      r'.store = aset store1 (sectName.getD mainSection)
        (aset opts0 (optionxform r.caseSensitive key) w) := by
  unfold setOp addSectionOp parserSetOp afterSetWrite writeConfigOp at h
  dsimp only at h
  split at h
  next => simp at h
  next r1 heq1 =>
    have hr1 : (r1.caseSensitive = r.caseSensitive ∧ r1.hasFile = r.hasFile) ∧
        ((r1.store = r.store ∧
            ∃ o, alookup r.store (sectName.getD mainSection) = some o) ∨
         (r1.store = r.store ++ [(sectName.getD mainSection, [])] ∧
            alookup r.store (sectName.getD mainSection) = none)) := by
      split at heq1
      · simp at heq1
      · split at heq1
        next val heqA =>
          simp only [Prod.mk.injEq] at heq1
          obtain ⟨-, h2⟩ := heq1
          subst h2
          exact ⟨⟨rfl, rfl⟩, Or.inl ⟨rfl, val, heqA⟩⟩
        next heqA =>
          simp only [Prod.mk.injEq] at heq1
          obtain ⟨-, h2⟩ := heq1
          subst h2
          exact ⟨⟨rfl, rfl⟩, Or.inr ⟨rfl, heqA⟩⟩
    obtain ⟨⟨hcs1, hhf1⟩, hst1⟩ := hr1
    have hst1d : r1.store = r.store ∨
        r1.store = r.store ++ [(sectName.getD mainSection, [])] := by
      rcases hst1 with ⟨he, -⟩ | ⟨he, -⟩
      · exact Or.inl he
      · exact Or.inr he
    clear heq1
    split at h
    next store' heq2 =>
      split at h
      next => simp at h
      next r2 heq3 =>
        have hr2 : r2.caseSensitive = r1.caseSensitive ∧ r2.hasFile = r1.hasFile ∧
            r2.store = store' := by
          split at heq3
          · simp only [Prod.mk.injEq] at heq3
            obtain ⟨-, h3⟩ := heq3
            subst h3
            exact ⟨rfl, rfl, rfl⟩
          · simp at heq3
        have h' : r2 = r' := by simpa using h
        subst h'
        obtain ⟨hcs2, hhf2, hstore2⟩ := hr2
        split at heq2
        next hbs =>
          split at heq2
          · simp at heq2
          next opts heqB =>
            simp only [Except.ok.injEq] at heq2
            refine ⟨hcs2.trans hcs1, hhf2.trans hhf1, r1.store, opts, value,
              hst1d, heqB, fun _ => rfl, ?_⟩
            rw [hstore2, ← heq2, hcs1]
        next hbs => simp at heq2
    next heq2 =>
      split at h
      next store' heq4 =>
        split at h
        next => simp at h
        next r2 heq3 =>
          have hr2 : r2.caseSensitive = r1.caseSensitive ∧ r2.hasFile = r1.hasFile ∧
              r2.store = store' := by
            split at heq3
            · simp only [Prod.mk.injEq] at heq3
              obtain ⟨-, h3⟩ := heq3
              subst h3
              exact ⟨rfl, rfl, rfl⟩
            · simp at heq3
          have h' : r2 = r' := by simpa using h
          subst h'
          obtain ⟨hcs2, hhf2, hstore2⟩ := hr2
          have hbs : ¬ (beforeSetOk value = true) := by
            intro hb
            rw [if_pos hb] at heq2
            split at heq2 <;> simp at heq2
          split at heq4
          next hbs2 =>
            split at heq4
            · simp at heq4
            next opts heqB =>
              simp only [Except.ok.injEq] at heq4
              refine ⟨hcs2.trans hcs1, hhf2.trans hhf1, r1.store, opts,
                pyReplace (pyReplace value "%" "%%") "%%(" "%(",
                hst1d, heqB, fun hc => absurd hc hbs, ?_⟩
              rw [hstore2, ← heq4, hcs1]
          next hbs2 => simp at heq4
      next e heq4 => simp at h
    next e heq2 hne => simp at h

/-- A section of a store holds a binding for a key. -/
def hasKey (st : Store) (sect k : String) : Prop :=
  ∃ opts v, alookup st sect = some opts ∧ alookup opts k = some v

theorem addSectionOp_inv {r : Reader} {sect : String} {e? : Option PyErr}
    {r' : Reader} (h : addSectionOp r sect = (e?, r')) :
    r'.caseSensitive = r.caseSensitive ∧ r'.hasFile = r.hasFile ∧
    (r'.store = r.store ∨ r'.store = r.store ++ [(sect, [])]) := by
  unfold addSectionOp at h
  split at h
  · simp only [Prod.mk.injEq] at h
    obtain ⟨-, h2⟩ := h
    subst h2
    exact ⟨rfl, rfl, Or.inl rfl⟩
  · split at h <;>
      (simp only [Prod.mk.injEq] at h
       obtain ⟨-, h2⟩ := h
       subst h2)
    · exact ⟨rfl, rfl, Or.inl rfl⟩
    · exact ⟨rfl, rfl, Or.inr rfl⟩

theorem optionxform_reader (cs : Bool) : optionxform cs "reader" = "reader" := by
  cases cs <;> rfl

theorem setOp_preserves {r : Reader} {key value : String} {sectName : Option String}
    {r' : Reader} (h : setOp r key value sectName false = (none, r')) :
    ∀ K, hasKey r.store "main" K → hasKey r'.store "main" K := by
  intro K hk
  obtain ⟨optsM, vM, hM, hK⟩ := hk
  obtain ⟨hcs, -, store1, opts0, w, hst1, hlk, -, hstore⟩ := setOp_inv h
  have hM1 : alookup store1 "main" = some optsM := by
    rcases hst1 with he | he
    · rw [he]; exact hM
    · rw [he]; exact alookup_append_left _ _ _ _ hM
  by_cases hsect : sectName.getD mainSection = "main"
  · rw [hsect] at hlk hstore
    rw [hM1] at hlk
    obtain rfl := Option.some.inj hlk
    rw [hstore]
    by_cases hkk : K = optionxform r.caseSensitive key
    · exact ⟨aset optsM (optionxform r.caseSensitive key) w, w,
        alookup_aset_self _ _ _, hkk ▸ alookup_aset_self _ _ _⟩
    · refine ⟨aset optsM (optionxform r.caseSensitive key) w, vM,
        alookup_aset_self _ _ _, ?_⟩
      rw [alookup_aset_ne _ _ _ _ hkk]
      exact hK
  · rw [hstore]
    refine ⟨optsM, vM, ?_, hK⟩
    rw [alookup_aset_ne _ _ _ _ (fun heq => hsect heq.symm)]
    exact hM1

theorem setAllIn_inv {sect : String} {items : List (String × String)} :
    ∀ {r r' : Reader}, setAllIn r sect items = (none, r') →
    r'.caseSensitive = r.caseSensitive ∧ r'.hasFile = r.hasFile ∧
    (∀ K, hasKey r.store "main" K → hasKey r'.store "main" K) := by
  induction items with
  | nil =>
    intro r r' h
    rw [setAllIn] at h
    simp only [Prod.mk.injEq] at h
    obtain ⟨-, h2⟩ := h
    subst h2
    exact ⟨rfl, rfl, fun _ hk => hk⟩
  | cons p rest ih =>
    intro r r' h
    obtain ⟨k, v⟩ := p
    rw [setAllIn] at h
    cases hset : setOp r k v (some sect) false with
    | mk e? r1 =>
      rw [hset] at h
      cases e? with
      | some e => simp at h
      | none =>
        dsimp only at h
        obtain ⟨hcs1, hhf1, hpres1⟩ := ih h
        obtain ⟨hcs0, hhf0, -⟩ := setOp_inv hset
        exact ⟨hcs1.trans hcs0, hhf1.trans hhf0,
          fun K hk => hpres1 K (setOp_preserves hset K hk)⟩

theorem processDefault_inv {r : Reader} {e : String × DefVal} {r' : Reader}
    (h : processDefault r e = (none, r')) :
    r'.caseSensitive = r.caseSensitive ∧ r'.hasFile = r.hasFile ∧
    (∀ K, hasKey r.store "main" K → hasKey r'.store "main" K) := by
  obtain ⟨k, dv⟩ := e
  cases dv with
  | sect items =>
    unfold processDefault at h
    dsimp only at h
    cases hadd : addSectionOp r k with
    | mk e? ra =>
      rw [hadd] at h
      cases e? with
      | some e => simp at h
      | none =>
        dsimp only at h
        obtain ⟨hcs1, hhf1, hpres1⟩ := setAllIn_inv h
        obtain ⟨hcs0, hhf0, hst0⟩ := addSectionOp_inv hadd
        refine ⟨hcs1.trans hcs0, hhf1.trans hhf0, fun K hk => hpres1 K ?_⟩
        obtain ⟨opts, v, hM, hK⟩ := hk
        rcases hst0 with he | he
        · exact ⟨opts, v, he ▸ hM, hK⟩
        · exact ⟨opts, v, he ▸ alookup_append_left _ _ _ _ hM, hK⟩
  | str v =>
    unfold processDefault at h
    dsimp only at h
    cases hadd : addSectionOp r mainSection with
    | mk e? ra =>
      rw [hadd] at h
      cases e? with
      | some e => simp at h
      | none =>
        dsimp only at h
        obtain ⟨hcs1, hhf1, -⟩ := setOp_inv h
        obtain ⟨hcs0, hhf0, hst0⟩ := addSectionOp_inv hadd
        refine ⟨hcs1.trans hcs0, hhf1.trans hhf0, fun K hk => ?_⟩
        refine setOp_preserves h K ?_
        obtain ⟨opts, w, hM, hK⟩ := hk
        rcases hst0 with he | he
        · exact ⟨opts, w, he ▸ hM, hK⟩
        · exact ⟨opts, w, he ▸ alookup_append_left _ _ _ _ hM, hK⟩

/-- Processing the string-valued `reader` default seeds `main.reader`. -/
theorem processDefault_reader {r : Reader} {v : String} {r' : Reader}
    (h : processDefault r ("reader", .str v) = (none, r')) :
    hasKey r'.store "main" "reader" := by
  unfold processDefault at h
  dsimp only at h
  cases hadd : addSectionOp r mainSection with
  | mk e? ra =>
    rw [hadd] at h
    cases e? with
    | some e => simp at h
    | none =>
      dsimp only at h
      obtain ⟨-, -, store1, opts0, w, -, -, -, hstore⟩ := setOp_inv h
      refine ⟨aset opts0 (optionxform ra.caseSensitive "reader") w, w, ?_, ?_⟩
      · rw [hstore]
        exact alookup_aset_self _ _ _
      · rw [optionxform_reader]
        rw [show optionxform ra.caseSensitive "reader" = "reader" from
          optionxform_reader _] at *
        exact alookup_aset_self _ _ _

theorem processDefaults_inv {ds : Defaults} :
    ∀ {r r' : Reader}, processDefaults r ds = (none, r') →
    r'.caseSensitive = r.caseSensitive ∧ r'.hasFile = r.hasFile ∧
    (∀ K, hasKey r.store "main" K → hasKey r'.store "main" K) := by
  induction ds with
  | nil =>
    intro r r' h
    rw [processDefaults] at h
    simp only [Prod.mk.injEq] at h
    obtain ⟨-, h2⟩ := h
    subst h2
    exact ⟨rfl, rfl, fun _ hk => hk⟩
  | cons d rest ih =>
    intro r r' h
    rw [processDefaults] at h
    cases hpd : processDefault r d with
    | mk e? r1 =>
      rw [hpd] at h
      cases e? with
      | some e => simp at h
      | none =>
        dsimp only at h
        obtain ⟨hcs1, hhf1, hpres1⟩ := ih h
        obtain ⟨hcs0, hhf0, hpres0⟩ := processDefault_inv hpd
        exact ⟨hcs1.trans hcs0, hhf1.trans hhf0,
          fun K hk => hpres1 K (hpres0 K hk)⟩

/-- If the defaults list still binds `reader` to a string (or the key is
already seeded), a successful defaults pass leaves `main.reader` set. -/
theorem processDefaults_reader {ds : Defaults} :
    ∀ {r r' : Reader}, processDefaults r ds = (none, r') →
    (hasKey r.store "main" "reader" ∨ ∃ v, alookup ds "reader" = some (.str v)) →
    hasKey r'.store "main" "reader" := by
  induction ds with
  | nil =>
    intro r r' h hbase
    rw [processDefaults] at h
    simp only [Prod.mk.injEq] at h
    obtain ⟨-, h2⟩ := h
    subst h2
    rcases hbase with hk | ⟨v, hl⟩
    · exact hk
    · simp [alookup] at hl
  | cons d rest ih =>
    intro r r' h hbase
    obtain ⟨k, dv⟩ := d
    rw [processDefaults] at h
    cases hpd : processDefault r (k, dv) with
    | mk e? r1 =>
      rw [hpd] at h
      cases e? with
      | some e => simp at h
      | none =>
        dsimp only at h
        rcases hbase with hk | ⟨v, hl⟩
        · exact ih h (Or.inl ((processDefault_inv hpd).2.2 _ hk))
        · by_cases hkr : k = "reader"
          · subst hkr
            rw [alookup, if_pos rfl] at hl
            obtain rfl := Option.some.inj hl
            exact ih h (Or.inl (processDefault_reader hpd))
          · simp only [alookup, if_neg hkr] at hl
            exact ih h (Or.inr ⟨v, hl⟩)

/-- Inversion of a successful construction: the returned defaults are the
class defaults updated with the file's sections, and the reader's store is
the one produced by the defaults pass. -/
theorem construct_inv {d : Defaults} {ds : Store} {cs : Bool} {r : Reader}
    {d' : Defaults} (h : construct d ds cs = (none, r, d')) :
    d' = defaultsUpdate d (ds.map fun p => (p.1, DefVal.sect p.2)) ∧
    ∃ rp, processDefaults
        { caseSensitive := cs, store := [], buffer := "", hasFile := true,
          disk := "" } (defaultsUpdate d (ds.map fun p => (p.1, DefVal.sect p.2)))
        = (none, rp) ∧
      r.store = rp.store ∧ r.caseSensitive = rp.caseSensitive := by
  unfold construct at h
  dsimp only at h
  split at h
  next => simp at h
  next rp hpd =>
    split at h
    next => simp at h
    next r2 hwc =>
      simp only [Prod.mk.injEq] at h
      obtain ⟨-, h2, h3⟩ := h
      subst h2
      subst h3
      unfold writeConfigOp at hwc
      split at hwc
      · simp only [Prod.mk.injEq] at hwc
        obtain ⟨-, h4⟩ := hwc
        subst h4
        exact ⟨rfl, rp, hpd, rfl, rfl⟩
      · simp at hwc

/-- C7 (amended): the default section `main` holding the `reader` key is a
post-condition of construction (whenever the shared class defaults still
map `reader` to a string value, as they do unless a file defines a whole
section named `reader`).  It is not an invariant preserved by every
operation: `remove_section("main")` removes it — see the counterexample. -/
theorem claim_C7_seeded (d : Defaults) (diskStore : Store) (cs : Bool)
    (r : Reader) (d' : Defaults) (v : String)
    (hc : construct d diskStore cs = (none, r, d'))
    (hreader : alookup d' "reader" = some (.str v)) :
    ∃ opts w, alookup r.store "main" = some opts ∧
      alookup opts "reader" = some w := by
  obtain ⟨hd', rp, hpd, hstore, -⟩ := construct_inv hc
  have hk : hasKey rp.store "main" "reader" :=
    processDefaults_reader hpd (Or.inr ⟨v, hd' ▸ hreader⟩)
  rw [hstore]
  exact hk

theorem claim_C7_witness :
    construct initialDefaults [] false = (none, freshReader, initialDefaults) ∧
    alookup initialDefaults "reader" = some (.str "configreader") ∧
    (∃ opts w, alookup freshReader.store "main" = some opts ∧
      alookup opts "reader" = some w) :=
  ⟨rfl, rfl, claim_C7_seeded initialDefaults [] false freshReader
    initialDefaults "configreader" rfl rfl⟩

/-- C7 counterexample: the property is not an invariant preserved by every
operation: immediately after construction, `remove_section("main")`
succeeds and leaves the store without the `main` section at all. -/
theorem claim_C7_counterexample :
    (removeSectionOp freshReader "main").1 = none ∧
    alookup (removeSectionOp freshReader "main").2.store "main" = none :=
  ⟨rfl, rfl⟩

theorem processDefaults_append {e : String × DefVal} {ds : Defaults} :
    ∀ {r r' : Reader}, processDefaults r (ds ++ [e]) = (none, r') →
    ∃ r1, processDefaults r ds = (none, r1) ∧ processDefault r1 e = (none, r') := by
  induction ds with
  | nil =>
    intro r r' h
    rw [List.nil_append, processDefaults] at h
    cases hpd : processDefault r e with
    | mk e? r1 =>
      rw [hpd] at h
      cases e? with
      | some e2 => simp at h
      | none =>
        dsimp only at h
        rw [processDefaults] at h
        simp only [Prod.mk.injEq] at h
        obtain ⟨-, h2⟩ := h
        subst h2
        exact ⟨r, rfl, hpd⟩
  | cons d rest ih =>
    intro r r' h
    rw [List.cons_append, processDefaults] at h
    cases hpd : processDefault r d with
    | mk e? r1 =>
      rw [hpd] at h
      cases e? with
      | some e2 => simp at h
      | none =>
        dsimp only at h
        obtain ⟨r2, h1, h2⟩ := ih h
        refine ⟨r2, ?_, h2⟩
        rw [processDefaults, hpd]
        exact h1

theorem setAllIn_single_inv {r : Reader} {sect k v : String} {r' : Reader}
    (h : setAllIn r sect [(k, v)] = (none, r')) :
    setOp r k v (some sect) false = (none, r') := by
  rw [setAllIn] at h
  cases hset : setOp r k v (some sect) false with
  | mk e? r1 =>
    rw [hset] at h
    cases e? with
    | some e => simp at h
    | none =>
      dsimp only at h
      rw [setAllIn] at h
      simp only [Prod.mk.injEq] at h
      obtain ⟨-, h2⟩ := h
      subst h2
      rfl

/-- C10: the class-level default seed is shared and mutated during
construction.  If one reader is constructed over a file containing an
extra section, a second reader constructed afterwards over an empty
target also contains that section with the same key and value. -/
theorem claim_C10_shared_defaults (d0 : Defaults) (sect k v : String)
    (cs cs2 : Bool) (r1 r2 : Reader) (d1 d2 : Defaults)
    (hd0 : alookup d0 sect = none)
    (hv : ∀ c ∈ v.data, c ≠ '%')
    (hc1 : construct d0 [(sect, [(k, v)])] cs = (none, r1, d1))
    (hc2 : construct d1 [] cs2 = (none, r2, d2)) :
    ∃ opts, alookup r2.store sect = some opts ∧
      alookup opts (optionxform cs2 k) = some v := by
  obtain ⟨hd1, -⟩ := construct_inv hc1
  have hd1' : d1 = d0 ++ [(sect, DefVal.sect [(k, v)])] := by
    rw [hd1]
    show defaultsUpdate (aset d0 sect (DefVal.sect [(k, v)])) [] = _
    rw [defaultsUpdate]
    exact aset_of_absent _ _ _ hd0
  obtain ⟨-, rp, hpd, hstore, -⟩ := construct_inv hc2
  have hred : defaultsUpdate d1 (List.map
      (fun p => (p.1, DefVal.sect p.2)) ([] : List (String × Options))) = d1 := rfl
  rw [hred, hd1'] at hpd
  obtain ⟨rmid, hpre, hlast⟩ := processDefaults_append hpd
  have hcsmid : rmid.caseSensitive = cs2 := (processDefaults_inv hpre).1
  unfold processDefault at hlast
  dsimp only at hlast
  cases hadd : addSectionOp rmid sect with
  | mk e? ra =>
    rw [hadd] at hlast
    cases e? with
    | some e => simp at hlast
    | none =>
      dsimp only at hlast
      have hset := setAllIn_single_inv hlast
      obtain ⟨-, -, store1, opts0, w, -, -, himp, hstore'⟩ := setOp_inv hset
      have hw : w = v := himp (beforeSetOk_no_pct v hv)
      have hcsra : ra.caseSensitive = cs2 := by
        rw [(addSectionOp_inv hadd).1, hcsmid]
      rw [hcsra, hw] at hstore'
      refine ⟨aset opts0 (optionxform cs2 k) v, ?_, alookup_aset_self _ _ _⟩
      rw [hstore, hstore']
      exact alookup_aset_self _ _ _

/-! ### `difflib.SequenceMatcher` and `ConfigReader.search`

`search` compares every stored value against the query with
`SequenceMatcher(None, found, value).ratio()`.  The matcher is embedded
exactly: `__chain_b` builds the index map `b2j` of the second sequence
(with the `autojunk` heuristic dropping popular elements once the
sequence reaches 200 characters; the junk set itself is empty because
`isjunk` is `None`, so the two junk-extension loops of
`find_longest_match` are vacuous and omitted), `find_longest_match` runs
the length-of-match dynamic programming pass plus the two non-junk
extension loops, and the matched size is the total of the block sizes
produced by `get_matching_blocks`' divide-and-conquer recursion (its
final sort-and-merge step does not change the total).  Ratios and the
`threshold` argument are carried as exact fractions - numerator and
positive denominator - and compared by cross multiplication, the exact
counterpart of the floating point comparisons in the source. -/

/-- Lookup in a character-indexed map (`b2j.get(a[i], [])`). -/
def cLookup : List (Char × List Nat) → Char → Option (List Nat)
  | [], _ => none
  | (k, v) :: rest, c => if k = c then some v else cLookup rest c

/-- `b2j.setdefault(x, []).append(i)`. -/
def cAppendIdx : List (Char × List Nat) → Char → Nat → List (Char × List Nat)
  | [], c, i => [(c, [i])]
  | (k, v) :: rest, c, i =>
    if k = c then (k, v ++ [i]) :: rest else (k, v) :: cAppendIdx rest c i

def b2jGo : Nat → List Char → List (Char × List Nat) → List (Char × List Nat)
  | _, [], m => m
  | i, c :: rest, m => b2jGo (i + 1) rest (cAppendIdx m c i)

/-- `SequenceMatcher.__chain_b`: index every element of `b`, then with
`autojunk` (the default) drop the popular elements - those occurring more
than `n // 100 + 1` times - once `b` has at least 200 elements. -/
def b2jBuild (b : List Char) : List (Char × List Nat) :=
  let m := b2jGo 0 b []
  if 200 ≤ b.length then
    m.filter (fun p => decide (p.2.length ≤ b.length / 100 + 1))
  else m

/-- The inner loop of `find_longest_match` over the occurrence list of
`a[i]` in `b`: indices below `blo` are skipped, the first index at or
past `bhi` breaks, otherwise the run length ending at `(i, j)` extends
the run ending at `(i-1, j-1)` (`j2len.get(j-1, 0) + 1`) and a strictly
longer run replaces the current best block. -/
def flmInner (j2len : Nat → Nat) (blo bhi i : Nat) :
    List Nat → (Nat → Nat) → Nat × Nat × Nat → (Nat → Nat) × (Nat × Nat × Nat)
  | [], nj, best => (nj, best)
  | j :: rest, nj, best =>
    if j < blo then flmInner j2len blo bhi i rest nj best
    else if bhi ≤ j then (nj, best)
    else
      let k := (if j = 0 then 0 else j2len (j - 1)) + 1
      let nj2 := fun x => if x = j then k else nj x
      let best2 := if best.2.2 < k then (i + 1 - k, j + 1 - k, k) else best
      flmInner j2len blo bhi i rest nj2 best2

/-- The outer loop of `find_longest_match` over `i` in
`range(alo, ahi)`, threading the run-length map of the previous row. -/
def flmOuter (a : List Char) (b2jm : List (Char × List Nat)) (blo bhi : Nat) :
    Nat → Nat → (Nat → Nat) → Nat × Nat × Nat → Nat × Nat × Nat
  | 0, _, _, best => best
  | n + 1, i, j2len, best =>
    let js := (cLookup b2jm (a.getD i (Char.ofNat 0))).getD []
    match flmInner j2len blo bhi i js (fun _ => 0) best with
    | (nj, best2) => flmOuter a b2jm blo bhi n (i + 1) nj best2

/-- The backward non-junk extension loop of `find_longest_match`
(`while besti > alo and bestj > blo and a[besti-1] == b[bestj-1]`);
fuelled, one step per iteration. -/
def extendBack (a b : List Char) (alo blo : Nat) :
    Nat → Nat × Nat × Nat → Nat × Nat × Nat
  | 0, best => best
  | fuel + 1, (bi, bj, bs) =>
    if alo < bi ∧ blo < bj then
      match a.get? (bi - 1), b.get? (bj - 1) with
      | some x, some y =>
        if x = y then extendBack a b alo blo fuel (bi - 1, bj - 1, bs + 1)
        else (bi, bj, bs)
      | _, _ => (bi, bj, bs)
    else (bi, bj, bs)

/-- The forward non-junk extension loop of `find_longest_match`
(`while besti+bestsize < ahi and bestj+bestsize < bhi and
a[besti+bestsize] == b[bestj+bestsize]`). -/
def extendFwd (a b : List Char) (ahi bhi : Nat) :
    Nat → Nat × Nat × Nat → Nat × Nat × Nat
  | 0, best => best
  | fuel + 1, (bi, bj, bs) =>
    if bi + bs < ahi ∧ bj + bs < bhi then
      match a.get? (bi + bs), b.get? (bj + bs) with
      | some x, some y =>
        if x = y then extendFwd a b ahi bhi fuel (bi, bj, bs + 1)
        else (bi, bj, bs)
      | _, _ => (bi, bj, bs)
    else (bi, bj, bs)

/-- `SequenceMatcher.find_longest_match` on `a[alo:ahi]` and
`b[blo:bhi]`: the dynamic programming pass, then the two extension
loops (the junk-conditional loops are vacuous, the junk set is empty). -/
def findLongestMatch (a b : List Char) (b2jm : List (Char × List Nat))
    (alo ahi blo bhi : Nat) : Nat × Nat × Nat :=
  let best0 := flmOuter a b2jm blo bhi (ahi - alo) alo (fun _ => 0) (alo, blo, 0)
  let best1 := extendBack a b alo blo best0.1 best0
  extendFwd a b ahi bhi ahi best1

/-- Total size of the matching blocks found by
`get_matching_blocks`' recursion: the longest match of the window plus
the totals of the windows to its left and right.  Fuelled; every level
strictly shrinks the `a`-window, so the fuel chosen by `matchingSize`
never runs out. -/
def msGo (a b : List Char) (b2jm : List (Char × List Nat)) :
    Nat → Nat → Nat → Nat → Nat → Nat
  | 0, _, _, _, _ => 0
  | fuel + 1, alo, ahi, blo, bhi =>
    match findLongestMatch a b b2jm alo ahi blo bhi with
    | (i, j, k) =>
      if k = 0 then 0
      else
        k + (if alo < i ∧ blo < j then msGo a b b2jm fuel alo i blo j else 0)
          + (if i + k < ahi ∧ j + k < bhi then
               msGo a b b2jm fuel (i + k) ahi (j + k) bhi else 0)

def matchingSize (a b : List Char) : Nat :=
  msGo a b (b2jBuild b) (a.length + b.length + 1) 0 a.length 0 b.length

/-- `SequenceMatcher.ratio` via `_calculate_ratio`: `2*M / (la+lb)` as
an exact numerator/denominator pair, and `1` when both sequences are
empty.  The denominator is always positive. -/
def ratioPair (a b : List Char) : Nat × Nat :=
  let t := a.length + b.length
  if t = 0 then (1, 1) else (2 * matchingSize a b, t)

/-- The `threshold` argument of `search`, carried as an exact fraction
`num / den` with the denominator intended positive. -/
structure Thresh where
  num : Int
  den : Nat

/-- `0 <= threshold <= 1`. -/
def threshInRange (t : Thresh) : Bool :=
  decide (0 ≤ t.num) && decide (t.num ≤ (t.den : Int))

/-- `ratio >= threshold`, by cross multiplication (both denominators
positive). -/
def ratioGe (r : Nat × Nat) (t : Thresh) : Bool :=
  decide (t.num * (r.2 : Int) ≤ (r.1 : Int) * (t.den : Int))

/-- A collected fuzzy match `(ratio, key, found, section)`. -/
abbrev MatchT := (Nat × Nat) × String × String × String

/-- `ratio1 < ratio2` on exact fraction pairs, as Python compares the
two floats in the first tuple component. -/
def fracLt (p q : Nat × Nat) : Bool := decide (p.1 * q.2 < q.1 * p.2)

def fracEq (p q : Nat × Nat) : Bool := decide (p.1 * q.2 = q.1 * p.2)

/-- Python's `<` on two strings: lexicographic comparison of the code
points. -/
def listLtB : List Char → List Char → Bool
  | [], [] => false
  | [], _ :: _ => true
  | _ :: _, [] => false
  | c :: cs, d :: ds =>
    if c.toNat < d.toNat then true
    else if d.toNat < c.toNat then false
    else listLtB cs ds

def strLtB (s t : String) : Bool := listLtB s.data t.data

/-- Lexicographic comparison of the trailing `(key, found, section)`
components, as Python compares the strings of two match tuples. -/
def strTriLt (x y : String × String × String) : Bool :=
  strLtB x.1 y.1 || (decide (x.1 = y.1) && (strLtB x.2.1 y.2.1 ||
    (decide (x.2.1 = y.2.1) && strLtB x.2.2 y.2.2)))

/-- Python's `<` on two `(ratio, key, found, section)` tuples. -/
def tupLt (m n : MatchT) : Bool :=
  fracLt m.1 n.1 || (fracEq m.1 n.1 && strTriLt m.2 n.2)

/-- Stable descending insertion: an element moves past exactly the
strictly larger ones, so equal elements keep their original order -
the semantics of `sorted(matches, reverse=True)`. -/
def insertDesc (x : MatchT) : List MatchT → List MatchT
  | [] => [x]
  | y :: rest => if tupLt x y then y :: insertDesc x rest else x :: y :: rest

/-- `sorted(matches, reverse=True)`. -/
def sortDesc : List MatchT → List MatchT
  | [] => []
  | x :: rest => insertDesc x (sortDesc rest)

/-- The inner loop of `search` over the option names of one section:
`found = self.get(key, section, evaluate=False)` (which cannot miss, the
key was listed, but can fail on interpolation), then either the exact
comparison with its early return, or the ratio test appending to
`matches`. -/
def scanOptions (r : Reader) (value lowered : String) (cs em : Bool)
    (t : Thresh) (sectName : String) :
    List String → List MatchT →
    Except PyErr (Sum (String × String × String) (List MatchT))
  | [], acc => .ok (.inr acc)
  | key :: rest, acc =>
    match (getRawOp r key (some sectName) none false).1 with
    | .error e => .error e
    | .ok found =>
      if em then
        if cs then
          if value = found then .ok (.inl (key, found, sectName))
          else scanOptions r value lowered cs em t sectName rest acc
        else
          if lowered = pyLower found then .ok (.inl (key, found, sectName))
          else scanOptions r value lowered cs em t sectName rest acc
      else
        if ratioGe (ratioPair found.data value.data) t then
          scanOptions r value lowered cs em t sectName rest
            (acc ++ [(ratioPair found.data value.data, key, found, sectName)])
        else scanOptions r value lowered cs em t sectName rest acc

/-- The outer loop of `search` over `self.sections`, with the option
names of each section taken in storage order. -/
def scanSections (r : Reader) (value lowered : String) (cs em : Bool)
    (t : Thresh) :
    List (String × Options) → List MatchT →
    Except PyErr (Sum (String × String × String) (List MatchT))
  | [], acc => .ok (.inr acc)
  | (sectName, opts) :: rest, acc =>
    match scanOptions r value lowered cs em t sectName
        (opts.map Prod.fst) acc with
    | .error e => .error e
    | .ok (.inl res) => .ok (.inl res)
    | .ok (.inr acc2) => scanSections r value lowered cs em t rest acc2

/-- `ConfigReader.search`: the threshold range check, the scan (with the
exact-match early return), then `sorted(matches, reverse=True)[0][1:]`
when any fuzzy candidate cleared the threshold, else the empty tuple,
rendered as `none`. -/
def searchOp (r : Reader) (value : String) (caseSensitive exactMatch : Bool)
    (t : Thresh) : Except PyErr (Option (String × String × String)) :=
  if threshInRange t then
    match scanSections r value (pyLower value) caseSensitive exactMatch t
        r.store [] with
    | .error e => .error e
    | .ok (.inl res) => .ok (some res)
    | .ok (.inr ms) =>
      match sortDesc ms with
      | [] => .ok none
      | m :: _ => .ok (some (m.2.1, m.2.2.1, m.2.2.2))
  else .error .thresholdError

theorem claim_C10_witness :
    alookup initialDefaults "extra" = none ∧
    (∀ c ∈ "v1".data, c ≠ '%') ∧
    construct initialDefaults [("extra", [("k1", "v1")])] false
      = (none, (construct initialDefaults [("extra", [("k1", "v1")])] false).2.1,
         (construct initialDefaults [("extra", [("k1", "v1")])] false).2.2) ∧
    construct (construct initialDefaults [("extra", [("k1", "v1")])] false).2.2 [] false
      = (none,
         (construct (construct initialDefaults
           [("extra", [("k1", "v1")])] false).2.2 [] false).2.1,
         (construct (construct initialDefaults
           [("extra", [("k1", "v1")])] false).2.2 [] false).2.2) ∧
    (∃ opts, alookup (construct (construct initialDefaults
        [("extra", [("k1", "v1")])] false).2.2 [] false).2.1.store "extra"
          = some opts ∧
      alookup opts (optionxform false "k1") = some "v1") :=
  ⟨rfl, by decide, rfl, rfl,
    claim_C10_shared_defaults initialDefaults "extra" "k1" "v1" false false
      (construct initialDefaults [("extra", [("k1", "v1")])] false).2.1
      (construct (construct initialDefaults
        [("extra", [("k1", "v1")])] false).2.2 [] false).2.1
      (construct initialDefaults [("extra", [("k1", "v1")])] false).2.2
      (construct (construct initialDefaults
        [("extra", [("k1", "v1")])] false).2.2 [] false).2.2
      rfl (by decide) rfl rfl⟩

/-! ### Order facts for the match-tuple comparison -/

theorem listLtB_irrefl : ∀ l : List Char, listLtB l l = false := by
  intro l
  induction l with
  | nil => rfl
  | cons c cs ih => simp [listLtB, ih]

theorem listLtB_asymm : ∀ a b : List Char,
    listLtB a b = true → listLtB b a = false := by
  intro a
  induction a with
  | nil =>
    intro b h
    cases b with
    | nil => simp [listLtB] at h
    | cons d ds => rfl
  | cons c cs ih =>
    intro b h
    cases b with
    | nil => simp [listLtB] at h
    | cons d ds =>
      simp only [listLtB] at h ⊢
      by_cases h1 : c.toNat < d.toNat
      · have h2 : ¬ d.toNat < c.toNat := by omega
        simp [h1, h2]
      · by_cases h2 : d.toNat < c.toNat
        · simp [h1, h2] at h
        · simp only [if_neg h1, if_neg h2] at h ⊢
          exact ih ds h

theorem listLtB_eq_of_not : ∀ a b : List Char,
    listLtB a b = false → listLtB b a = false → a = b := by
  intro a
  induction a with
  | nil =>
    intro b h1 h2
    cases b with
    | nil => rfl
    | cons d ds => simp [listLtB] at h1
  | cons c cs ih =>
    intro b h1 h2
    cases b with
    | nil => simp [listLtB] at h2
    | cons d ds =>
      simp only [listLtB] at h1 h2
      by_cases k1 : c.toNat < d.toNat
      · simp [k1] at h1
      · by_cases k2 : d.toNat < c.toNat
        · simp [k1, k2] at h2
        · simp only [if_neg k1, if_neg k2] at h1 h2
          have hc : c = d := by
            have : c.toNat = d.toNat := by omega
            exact Char.eq_of_val_eq (UInt32.ext this)
          rw [hc, ih ds h1 h2]

theorem listLtB_trans : ∀ a b c : List Char,
    listLtB a b = true → listLtB b c = true → listLtB a c = true := by
  intro a
  induction a with
  | nil =>
    intro b c hab hbc
    cases c with
    | nil =>
      cases b with
      | nil => exact hab
      | cons d ds => simp [listLtB] at hbc
    | cons e es => rfl
  | cons x xs ih =>
    intro b c hab hbc
    cases b with
    | nil => simp [listLtB] at hab
    | cons y ys =>
      cases c with
      | nil => simp [listLtB] at hbc
      | cons z zs =>
        simp only [listLtB] at hab hbc ⊢
        by_cases h1 : x.toNat < y.toNat
        · by_cases h2 : y.toNat < z.toNat
          · simp [show x.toNat < z.toNat by omega]
          · by_cases h3 : z.toNat < y.toNat
            · simp [h2, h3] at hbc
            · have : x.toNat < z.toNat := by omega
              simp [this]
        · by_cases h2 : y.toNat < x.toNat
          · simp [h1, h2] at hab
          · by_cases h3 : y.toNat < z.toNat
            · simp [show x.toNat < z.toNat by omega]
            · by_cases h4 : z.toNat < y.toNat
              · simp [h3, h4] at hbc
              · have k1 : ¬ x.toNat < z.toNat := by omega
                have k2 : ¬ z.toNat < x.toNat := by omega
                simp only [if_neg h1, if_neg h2] at hab
                simp only [if_neg h3, if_neg h4] at hbc
                simp only [if_neg k1, if_neg k2]
                exact ih ys zs hab hbc

theorem strLtB_irrefl (s : String) : strLtB s s = false := listLtB_irrefl s.data

theorem strLtB_asymm {s t : String} (h : strLtB s t = true) :
    strLtB t s = false := listLtB_asymm s.data t.data h

theorem strLtB_eq_of_not {s t : String} (h1 : strLtB s t = false)
    (h2 : strLtB t s = false) : s = t := by
  have := listLtB_eq_of_not s.data t.data h1 h2
  cases s with
  | mk l =>
    cases t with
    | mk l2 => exact congrArg String.mk this

theorem strLtB_trans {s t u : String} (h1 : strLtB s t = true)
    (h2 : strLtB t u = true) : strLtB s u = true :=
  listLtB_trans s.data t.data u.data h1 h2

theorem strTriLt_irrefl (x : String × String × String) :
    strTriLt x x = false := by
  simp [strTriLt, strLtB_irrefl]

theorem strTriLt_asymm {x y : String × String × String}
    (h : strTriLt x y = true) : strTriLt y x = false := by
  rw [strTriLt, Bool.or_eq_true, Bool.and_eq_true, Bool.or_eq_true,
    Bool.and_eq_true, decide_eq_true_eq, decide_eq_true_eq] at h
  rw [strTriLt]
  rcases h with h1 | ⟨e1, h⟩
  · have : strLtB y.1 x.1 = false := strLtB_asymm h1
    have e : decide (y.1 = x.1) = false := by
      rcases hd : decide (y.1 = x.1) with _ | _
      · rfl
      · rw [decide_eq_true_eq] at hd
        rw [hd, strLtB_irrefl] at h1
        exact absurd h1 (by simp)
    simp [this, e]
  · rcases h with h2 | ⟨e2, h3⟩
    · have n1 : strLtB y.1 x.1 = false := by rw [e1, strLtB_irrefl]
      have n2 : strLtB y.2.1 x.2.1 = false := strLtB_asymm h2
      have ne : decide (y.2.1 = x.2.1) = false := by
        rcases hd : decide (y.2.1 = x.2.1) with _ | _
        · rfl
        · rw [decide_eq_true_eq] at hd
          rw [hd, strLtB_irrefl] at h2
          exact absurd h2 (by simp)
      simp [n1, n2, ne]
    · have n1 : strLtB y.1 x.1 = false := by rw [e1, strLtB_irrefl]
      have n2 : strLtB y.2.1 x.2.1 = false := by rw [e2, strLtB_irrefl]
      have n3 : strLtB y.2.2 x.2.2 = false := strLtB_asymm h3
      simp [n1, n2, n3]

theorem strTriLt_split {x z : String × String × String}
    (y : String × String × String) (h : strTriLt x z = true) :
    strTriLt x y = true ∨ strTriLt y z = true := by
  rw [strTriLt, Bool.or_eq_true, Bool.and_eq_true, Bool.or_eq_true,
    Bool.and_eq_true, decide_eq_true_eq, decide_eq_true_eq] at h
  by_cases k1 : strLtB x.1 y.1 = true
  · left; rw [strTriLt, Bool.or_eq_true]; exact Or.inl k1
  by_cases k2 : strLtB y.1 x.1 = true
  · right
    rw [strTriLt, Bool.or_eq_true]
    left
    rcases h with h1 | ⟨e1, -⟩
    · exact strLtB_trans k2 h1
    · rw [← e1]; exact k2
  have e1 : x.1 = y.1 :=
    strLtB_eq_of_not (Bool.eq_false_iff.mpr k1) (Bool.eq_false_iff.mpr k2)
  rcases h with h1 | ⟨ez, h⟩
  · right
    rw [strTriLt, Bool.or_eq_true]
    left
    rw [← e1]
    exact h1
  · by_cases k3 : strLtB x.2.1 y.2.1 = true
    · left
      rw [strTriLt, Bool.or_eq_true, Bool.and_eq_true, Bool.or_eq_true,
        decide_eq_true_eq]
      exact Or.inr ⟨e1, Or.inl k3⟩
    by_cases k4 : strLtB y.2.1 x.2.1 = true
    · right
      rw [strTriLt, Bool.or_eq_true, Bool.and_eq_true, Bool.or_eq_true,
        decide_eq_true_eq]
      refine Or.inr ⟨by rw [← e1, ez], Or.inl ?_⟩
      rcases h with h2 | ⟨e2, -⟩
      · exact strLtB_trans k4 h2
      · rw [← e2]; exact k4
    have e2 : x.2.1 = y.2.1 :=
      strLtB_eq_of_not (Bool.eq_false_iff.mpr k3) (Bool.eq_false_iff.mpr k4)
    rcases h with h2 | ⟨e3, h3⟩
    · right
      rw [strTriLt, Bool.or_eq_true, Bool.and_eq_true, Bool.or_eq_true,
        decide_eq_true_eq]
      refine Or.inr ⟨by rw [← e1, ez], Or.inl ?_⟩
      rw [← e2]
      exact h2
    · by_cases k5 : strLtB x.2.2 y.2.2 = true
      · left
        rw [strTriLt, Bool.or_eq_true, Bool.and_eq_true, Bool.or_eq_true,
          Bool.and_eq_true, decide_eq_true_eq, decide_eq_true_eq]
        exact Or.inr ⟨e1, Or.inr ⟨e2, k5⟩⟩
      · right
        rw [strTriLt, Bool.or_eq_true, Bool.and_eq_true, Bool.or_eq_true,
          Bool.and_eq_true, decide_eq_true_eq, decide_eq_true_eq]
        refine Or.inr ⟨by rw [← e1, ez], Or.inr ⟨by rw [← e2, e3], ?_⟩⟩
        rcases hd : strLtB y.2.2 x.2.2 with _ | _
        · have e4 : x.2.2 = y.2.2 :=
            strLtB_eq_of_not (Bool.eq_false_iff.mpr k5) hd
          rw [← e4]
          exact h3
        · exact strLtB_trans hd h3

theorem fracLt_irrefl (p : Nat × Nat) : fracLt p p = false := by
  simp [fracLt]

theorem fracLt_asymm {p q : Nat × Nat} (h : fracLt p q = true) :
    fracLt q p = false := by
  rw [fracLt, decide_eq_true_eq] at h
  rw [fracLt, decide_eq_false_iff_not]
  omega

theorem fracEq_refl (p : Nat × Nat) : fracEq p p = true := by
  simp [fracEq]

theorem fracEq_symm {p q : Nat × Nat} (h : fracEq p q = true) :
    fracEq q p = true := by
  rw [fracEq, decide_eq_true_eq] at h
  rw [fracEq, decide_eq_true_eq]
  omega

theorem fracEq_of_not_lt {p q : Nat × Nat} (h1 : fracLt p q = false)
    (h2 : fracLt q p = false) : fracEq p q = true := by
  rw [fracLt, decide_eq_false_iff_not] at h1 h2
  rw [fracEq, decide_eq_true_eq]
  omega

theorem fracLt_false_of_eq {p q : Nat × Nat} (h : fracEq p q = true) :
    fracLt q p = false := by
  rw [fracEq, decide_eq_true_eq] at h
  rw [fracLt, decide_eq_false_iff_not]
  omega

theorem fracEq_false_of_lt {p q : Nat × Nat} (h : fracLt p q = true) :
    fracEq q p = false := by
  rw [fracLt, decide_eq_true_eq] at h
  rw [fracEq, decide_eq_false_iff_not]
  omega

theorem frac_split {a b c : Nat × Nat} (ha : 0 < a.2) (hb : 0 < b.2)
    (hc : 0 < c.2) (h : fracLt a c = true) :
    fracLt a b = true ∨ fracLt b c = true := by
  by_cases hab : fracLt a b = true
  · exact Or.inl hab
  · right
    rw [fracLt, decide_eq_true_eq, not_lt] at hab
    rw [fracLt, decide_eq_true_eq] at h
    rw [fracLt, decide_eq_true_eq]
    have s1 : b.1 * c.2 * a.2 ≤ a.1 * c.2 * b.2 := by
      calc b.1 * c.2 * a.2 = b.1 * a.2 * c.2 := by ring
        _ ≤ a.1 * b.2 * c.2 := mul_le_mul_right' hab c.2
        _ = a.1 * c.2 * b.2 := by ring
    have s2 : a.1 * c.2 * b.2 < c.1 * b.2 * a.2 := by
      calc a.1 * c.2 * b.2 < c.1 * a.2 * b.2 := by
            exact mul_lt_mul_of_pos_right h hb
        _ = c.1 * b.2 * a.2 := by ring
    exact lt_of_mul_lt_mul_right (lt_of_le_of_lt s1 s2) (Nat.zero_le a.2)

theorem fracLt_of_lt_of_eq {b a c : Nat × Nat} (ha : 0 < a.2) (hc : 0 < c.2)
    (hlt : fracLt b a = true) (heq : fracEq a c = true) :
    fracLt b c = true := by
  rw [fracLt, decide_eq_true_eq] at hlt
  rw [fracEq, decide_eq_true_eq] at heq
  rw [fracLt, decide_eq_true_eq]
  have s1 : b.1 * c.2 * a.2 < c.1 * b.2 * a.2 := by
    calc b.1 * c.2 * a.2 = b.1 * a.2 * c.2 := by ring
      _ < a.1 * b.2 * c.2 := mul_lt_mul_of_pos_right hlt hc
      _ = a.1 * c.2 * b.2 := by ring
      _ = c.1 * a.2 * b.2 := by rw [heq]
      _ = c.1 * b.2 * a.2 := by ring
  exact lt_of_mul_lt_mul_right s1 (Nat.zero_le a.2)

theorem fracEq_trans {b a c : Nat × Nat} (ha : 0 < a.2)
    (e1 : fracEq b a = true) (e2 : fracEq a c = true) :
    fracEq b c = true := by
  rw [fracEq, decide_eq_true_eq] at e1 e2
  rw [fracEq, decide_eq_true_eq]
  have s1 : b.1 * c.2 * a.2 = c.1 * b.2 * a.2 := by
    calc b.1 * c.2 * a.2 = b.1 * a.2 * c.2 := by ring
      _ = a.1 * b.2 * c.2 := by rw [e1]
      _ = a.1 * c.2 * b.2 := by ring
      _ = c.1 * a.2 * b.2 := by rw [e2]
      _ = c.1 * b.2 * a.2 := by ring
  exact Nat.eq_of_mul_eq_mul_right ha s1

theorem tupLt_irrefl (m : MatchT) : tupLt m m = false := by
  simp [tupLt, fracLt_irrefl, fracEq_refl, strTriLt_irrefl]

theorem tupLt_asymm {m n : MatchT} (h : tupLt m n = true) :
    tupLt n m = false := by
  rw [tupLt, Bool.or_eq_true, Bool.and_eq_true] at h
  rw [tupLt]
  rcases h with h1 | ⟨he, hs⟩
  · rw [fracLt_asymm h1, fracEq_false_of_lt h1]
    rfl
  · rw [fracLt_false_of_eq he, fracEq_symm he, strTriLt_asymm hs]
    rfl

theorem tupLt_split {a b c : MatchT} (ha : 0 < a.1.2) (hb : 0 < b.1.2)
    (hc : 0 < c.1.2) (h : tupLt a c = true) :
    tupLt a b = true ∨ tupLt b c = true := by
  rw [tupLt, Bool.or_eq_true, Bool.and_eq_true] at h
  rcases h with h1 | ⟨he, hs⟩
  · rcases frac_split ha hb hc h1 with h2 | h2
    · left; rw [tupLt, Bool.or_eq_true]; exact Or.inl h2
    · right; rw [tupLt, Bool.or_eq_true]; exact Or.inl h2
  · by_cases k1 : fracLt a.1 b.1 = true
    · left; rw [tupLt, Bool.or_eq_true]; exact Or.inl k1
    by_cases k2 : fracLt b.1 a.1 = true
    · right
      rw [tupLt, Bool.or_eq_true]
      exact Or.inl (fracLt_of_lt_of_eq ha hc k2 he)
    have e1 : fracEq a.1 b.1 = true :=
      fracEq_of_not_lt (Bool.eq_false_iff.mpr k1) (Bool.eq_false_iff.mpr k2)
    have e2 : fracEq b.1 c.1 = true := fracEq_trans ha (fracEq_symm e1) he
    rcases strTriLt_split b.2 hs with h3 | h3
    · left
      rw [tupLt, Bool.or_eq_true, Bool.and_eq_true]
      exact Or.inr ⟨e1, h3⟩
    · right
      rw [tupLt, Bool.or_eq_true, Bool.and_eq_true]
      exact Or.inr ⟨e2, h3⟩

/-- The head of the descending sort is a member of the list that no
member beats: `sorted(matches, reverse=True)[0]` is the greatest match
tuple.  Positivity of the ratio denominators makes the tuple comparison
a total preorder. -/
theorem sortDesc_max : ∀ l : List MatchT, (∀ m ∈ l, 0 < m.1.2) → l ≠ [] →
    ∃ best tl, sortDesc l = best :: tl ∧ best ∈ l ∧
      ∀ m ∈ l, tupLt best m = false := by
  intro l
  induction l with
  | nil => intro _ h; exact absurd rfl h
  | cons x rest ih =>
    intro hpos _
    cases rest with
    | nil =>
      refine ⟨x, [], rfl, List.mem_singleton_self x, ?_⟩
      intro m hm
      rcases List.mem_singleton.mp hm with rfl
      exact tupLt_irrefl m
    | cons y ys =>
      obtain ⟨b0, tl0, hsort, hmem, hmax⟩ :=
        ih (fun m hm => hpos m (List.mem_cons_of_mem x hm)) (by simp)
      by_cases hxy : tupLt x b0 = true
      · refine ⟨b0, insertDesc x tl0, ?_, List.mem_cons_of_mem x hmem, ?_⟩
        · show insertDesc x (sortDesc (y :: ys)) = _
          rw [hsort, insertDesc, if_pos hxy]
        · intro m hm
          rcases List.mem_cons.mp hm with rfl | hm2
          · exact tupLt_asymm hxy
          · exact hmax m hm2
      · refine ⟨x, b0 :: tl0, ?_, List.mem_cons_self x _, ?_⟩
        · show insertDesc x (sortDesc (y :: ys)) = _
          rw [hsort, insertDesc, if_neg hxy]
        · intro m hm
          rcases List.mem_cons.mp hm with rfl | hm2
          · exact tupLt_irrefl m
          · rcases hx : tupLt x m with _ | _
            · rfl
            · rcases tupLt_split (hpos x (List.mem_cons_self x _))
                (hpos b0 (List.mem_cons_of_mem x hmem))
                (hpos m hm) hx with h | h
              · exact absurd h hxy
              · rw [hmax m hm2] at h
                exact absurd h (by simp)

/-! ### `search` never raises the threshold error once past the guard -/

theorem interpGo_ne_thr (cs : Bool) (map : Options)
    (sub : List Char → Except PyErr (List Char))
    (hsub : ∀ l e, sub l = .error e → e ≠ .thresholdError) :
    ∀ fuel l e, interpGo cs map sub fuel l = .error e →
      e ≠ .thresholdError := by
  intro fuel
  induction fuel with
  | zero => intro l e h; simp [interpGo] at h
  | succ n ih =>
    intro l e h
    match l with
    | [] => simp [interpGo] at h
    | c :: rest =>
      rw [interpGo.eq_def] at h
      dsimp only at h
      repeat' split at h
      all_goals try exact Except.noConfusion h
      all_goals injection h with hh
      all_goals cases hh
      all_goals try decide
      all_goals
        (rename_i heq
         first
         | exact ih _ _ heq
         | exact hsub _ _ heq)

theorem interpolateSome_ne_thr (cs : Bool) (map : Options) :
    ∀ b l e, interpolateSome cs map b l = .error e →
      e ≠ .thresholdError := by
  intro b
  induction b with
  | zero =>
    intro l e h
    rw [interpolateSome] at h
    injection h with hh
    subst hh
    decide
  | succ n ih =>
    intro l e h
    rw [interpolateSome] at h
    exact interpGo_ne_thr cs map _ (fun l2 e2 h2 => ih l2 e2 h2) _ _ _ h

theorem beforeGet_ne_thr {cs : Bool} {map : Options} {v : String} {e : PyErr}
    (h : beforeGet cs map v = .error e) : e ≠ .thresholdError := by
  unfold beforeGet at h
  split at h
  next heq =>
    injection h with hh
    subst hh
    exact interpolateSome_ne_thr cs map 10 _ _ heq
  next => exact absurd h (by simp)

theorem parserGetOp_ne_thr {cs : Bool} {store : Store} {sect key : String}
    {e : PyErr} (h : parserGetOp cs store sect key = .error e) :
    e ≠ .thresholdError := by
  unfold parserGetOp at h
  repeat' split at h
  all_goals
    first
    | exact Except.noConfusion h
    | (injection h with hh; cases hh; decide)
    | exact beforeGet_ne_thr h

theorem getRawOp_ne_thr {r : Reader} {key sect : String} {e : PyErr}
    (h : (getRawOp r key (some sect) none false).1 = .error e) :
    e ≠ .thresholdError := by
  unfold getRawOp at h
  dsimp only [Option.getD] at h
  repeat' split at h
  all_goals try exact Except.noConfusion h
  all_goals try dsimp only at h
  all_goals try exact Except.noConfusion h
  all_goals
    (rename_i heq
     injection h with hh
     cases hh
     exact parserGetOp_ne_thr heq)

theorem scanOptions_ne_thr {r : Reader} {value lowered : String}
    {cs em : Bool} {t : Thresh} {sectName : String} :
    ∀ keys acc e,
      scanOptions r value lowered cs em t sectName keys acc = .error e →
      e ≠ .thresholdError := by
  intro keys
  induction keys with
  | nil => intro acc e h; simp [scanOptions] at h
  | cons key rest ih =>
    intro acc e h
    rw [scanOptions] at h
    split at h
    next e2 heq =>
      injection h with hh
      cases hh
      exact getRawOp_ne_thr heq
    next found heq =>
      split at h
      · split at h
        · split at h
          · exact Except.noConfusion h
          · exact ih _ _ h
        · split at h
          · exact Except.noConfusion h
          · exact ih _ _ h
      · split at h
        · exact ih _ _ h
        · exact ih _ _ h

theorem scanSections_ne_thr {r : Reader} {value lowered : String}
    {cs em : Bool} {t : Thresh} :
    ∀ secs acc e,
      scanSections r value lowered cs em t secs acc = .error e →
      e ≠ .thresholdError := by
  intro secs
  induction secs with
  | nil => intro acc e h; simp [scanSections] at h
  | cons p rest ih =>
    intro acc e h
    obtain ⟨sectName, opts⟩ := p
    rw [scanSections] at h
    split at h
    next e2 heq =>
      injection h with hh
      subst hh
      exact scanOptions_ne_thr _ _ _ heq
    next res heq => exact absurd h (by simp)
    next acc2 heq => exact ih _ _ h

theorem ratioPair_den_pos (a b : List Char) : 0 < (ratioPair a b).2 := by
  rw [ratioPair]
  split
  · exact Nat.one_pos
  next h => omega

theorem scanOptions_dens (r : Reader) (value lowered : String) (cs : Bool)
    (t : Thresh) (sectName : String) :
    ∀ keys acc ms,
      scanOptions r value lowered cs false t sectName keys acc
        = .ok (.inr ms) →
      (∀ m ∈ acc, 0 < m.1.2) → ∀ m ∈ ms, 0 < m.1.2 := by
  intro keys
  induction keys with
  | nil =>
    intro acc ms h hacc
    rw [scanOptions] at h
    simp only [Except.ok.injEq, Sum.inr.injEq] at h
    subst h
    exact hacc
  | cons key rest ih =>
    intro acc ms h hacc
    rw [scanOptions] at h
    split at h
    next e2 heq => exact absurd h (by simp)
    next found heq =>
      rw [if_neg Bool.false_ne_true] at h
      split at h
      · refine ih _ _ h ?_
        intro m hm
        rcases List.mem_append.mp hm with hm1 | hm2
        · exact hacc m hm1
        · rcases List.mem_singleton.mp hm2 with rfl
          exact ratioPair_den_pos _ _
      · exact ih _ _ h hacc

theorem scanSections_dens (r : Reader) (value lowered : String) (cs : Bool)
    (t : Thresh) :
    ∀ secs acc ms,
      scanSections r value lowered cs false t secs acc = .ok (.inr ms) →
      (∀ m ∈ acc, 0 < m.1.2) → ∀ m ∈ ms, 0 < m.1.2 := by
  intro secs
  induction secs with
  | nil =>
    intro acc ms h hacc
    rw [scanSections] at h
    simp only [Except.ok.injEq, Sum.inr.injEq] at h
    subst h
    exact hacc
  | cons p rest ih =>
    intro acc ms h hacc
    obtain ⟨sectName, opts⟩ := p
    rw [scanSections] at h
    split at h
    next e2 heq => exact absurd h (by simp)
    next res heq => exact absurd h (by simp)
    next acc2 heq =>
      exact ih _ _ h (scanOptions_dens _ _ _ _ _ _ _ _ _ heq hacc)

/-- C5: `search` validates its `threshold` argument before anything
else.  With the threshold the exact fraction `tn / td` (`td`
positive), `search` raises `ThresholdError` exactly when the threshold
lies strictly below `0` or strictly above `1`; for an in-range
threshold no outcome of the scan - hit, miss, or interpolation error -
is ever a `ThresholdError`. -/
theorem claim_C5_threshold_guard (r : Reader) (value : String)
    (cs em : Bool) (tn : Int) (td : Nat) (hd : 0 < td) :
    searchOp r value cs em ⟨tn, td⟩ = .error .thresholdError ↔
      (tn < 0 ∨ (td : Int) < tn) := by
  constructor
  · intro h
    by_cases hrange : threshInRange ⟨tn, td⟩ = true
    · exfalso
      rw [searchOp, if_pos hrange] at h
      split at h
      next e2 heq =>
        injection h with hh
        cases hh
        exact scanSections_ne_thr _ _ _ heq rfl
      next res heq => exact Except.noConfusion h
      next ms heq =>
        split at h
        · exact Except.noConfusion h
        · exact Except.noConfusion h
    · rw [threshInRange] at hrange
      simp only [Bool.and_eq_true, decide_eq_true_eq, not_and_or] at hrange
      rcases hrange with h1 | h1
      · left; omega
      · right; omega
  · intro h
    have hrange : ¬ threshInRange ⟨tn, td⟩ = true := by
      rw [threshInRange]
      simp only [Bool.and_eq_true, decide_eq_true_eq, not_and_or]
      rcases h with h1 | h1
      · left; omega
      · right; omega
    rw [searchOp, if_neg hrange]

theorem claim_C5_witness :
    0 < 2 ∧
    (searchOp freshReader "x" true false ⟨3, 2⟩ = .error .thresholdError ↔
      ((3 : Int) < 0 ∨ ((2 : Nat) : Int) < 3)) :=
  ⟨by decide, claim_C5_threshold_guard freshReader "x" true false 3 2 (by decide)⟩

/-- C4 (amended): in fuzzy mode, once the scan over the stored entries
has collected the list `ms` of `(ratio, key, found, section)` tuples
whose ratio is at or above the threshold, `search` returns the empty
result when `ms` is empty, and otherwise the `(key, found, section)` of
a collected tuple that is *greatest* in the natural tuple ordering - the
highest ratio, with ties broken by whichever tuple sorts *last*, not
first: `sorted(matches, reverse=True)[0]` is the maximum. -/
theorem claim_C4_fuzzy_selection (r : Reader) (value : String) (cs : Bool)
    (t : Thresh) (ms : List MatchT)
    (hrange : threshInRange t = true)
    (hscan : scanSections r value (pyLower value) cs false t r.store []
      = .ok (.inr ms)) :
    (ms = [] → searchOp r value cs false t = .ok none) ∧
    (ms ≠ [] → ∃ best, best ∈ ms ∧
      searchOp r value cs false t
        = .ok (some (best.2.1, best.2.2.1, best.2.2.2)) ∧
      ∀ m ∈ ms, tupLt best m = false) := by
  have hpos : ∀ m ∈ ms, 0 < m.1.2 :=
    scanSections_dens _ _ _ _ _ _ _ _ hscan
      (fun m hm => absurd hm (List.not_mem_nil m))
  constructor
  · intro he
    subst he
    rw [searchOp, if_pos hrange, hscan]
    rfl
  · intro hne
    obtain ⟨best, tl, hsort, hmem, hmax⟩ := sortDesc_max ms hpos hne
    refine ⟨best, hmem, ?_, hmax⟩
    rw [searchOp, if_pos hrange, hscan]
    dsimp only
    rw [hsort]

/-- A reader holding two options `a` and `b` of the main section, both
with the value `"xx"`. -/
def searchReader : Reader :=
  (setOp (setOp freshReader "a" "xx" none false).2 "b" "xx" none false).2

theorem claim_C4_witness :
    threshInRange ⟨36, 100⟩ = true ∧
    scanSections searchReader "xx" (pyLower "xx") true false ⟨36, 100⟩
        searchReader.store []
      = .ok (.inr [((4, 4), "a", "xx", mainSection),
                   ((4, 4), "b", "xx", mainSection)]) ∧
    (([((4, 4), "a", "xx", mainSection), ((4, 4), "b", "xx", mainSection)]
        : List MatchT) ≠ [] →
      ∃ best, best ∈ ([((4, 4), "a", "xx", mainSection),
                       ((4, 4), "b", "xx", mainSection)] : List MatchT) ∧
        searchOp searchReader "xx" true false ⟨36, 100⟩
          = .ok (some (best.2.1, best.2.2.1, best.2.2.2)) ∧
        ∀ m ∈ ([((4, 4), "a", "xx", mainSection),
                ((4, 4), "b", "xx", mainSection)] : List MatchT),
          tupLt best m = false) :=
  ⟨rfl, rfl,
    (claim_C4_fuzzy_selection searchReader "xx" true ⟨36, 100⟩
      [((4, 4), "a", "xx", mainSection), ((4, 4), "b", "xx", mainSection)]
      rfl rfl).2⟩

/-- C4 counterexample to the original tie-break claim: both stored
values match the query `"xx"` with ratio `1`, the candidate list
collects `a` before `b` (and `(1, "a", ..)` sorts first in the natural
tuple ordering), yet `search` returns `("b", "xx", "main")` - the
candidate that sorts *last*, not first. -/
theorem claim_C4_counterexample :
    scanSections searchReader "xx" (pyLower "xx") true false ⟨36, 100⟩
        searchReader.store []
      = .ok (.inr [((4, 4), "a", "xx", mainSection),
                   ((4, 4), "b", "xx", mainSection)]) ∧
    tupLt ((4, 4), "a", "xx", mainSection) ((4, 4), "b", "xx", mainSection)
      = true ∧
    searchOp searchReader "xx" true false ⟨36, 100⟩
      = .ok (some ("b", "xx", mainSection)) ∧
    ("b", "xx", mainSection) ≠ (("a", "xx", mainSection)
      : String × String × String) :=
  ⟨rfl, rfl, rfl, by decide⟩

end PyCfg
